import Mathlib

/-!
Verification of the DynamoDB partial-update compiler and item-store client of
`aws_tools` (files `aws_tools/dynamodb_async.py` and `aws_tools/dynamoDB.py`)
against its natural-language specification.

The Python value model is shallowly embedded as the mutual inductive `Value`
below.  Python numbers are embedded exactly:

* `int`   as `Int`;
* `float` as the decimal fraction it denotes (`Dec`, a mantissa/exponent pair
  `m / 10 ^ e`).  Every IEEE double is a binary fraction `n / 2^k`, hence the
  decimal fraction `n·5^k / 10^k`, so this embedding is lossless; `round` and
  `str` are modelled at the decimal level, matching Python's correctly-rounded
  decimal semantics for `round(x, 6)` and shortest-round-trip `repr`;
* `decimal.Decimal` values (the wire representation) also as `Dec`, kept in
  normalised (trailing-zero-free) form, which identifies exactly the
  `Decimal` values Python's `==` identifies.

Fallible Python code is embedded with `Except DBError`.  The remote store
(the transport collaborator of spec section 6) is modelled by a `Table`
state and explicit state passing.
-/

/-- A decimal fraction `m / 10 ^ e`. -/
structure Dec where
  m : Int
  e : Nat
deriving DecidableEq, Repr

/-- Normalise by stripping trailing zero digits of the mantissa, so that the
fraction has no representable shorter form.  Structural recursion on `e`. -/
def Dec.norm (d : Dec) : Dec :=
  go d.m d.e
where
  go (m : Int) : Nat → Dec
    | 0 => ⟨m, 0⟩
    | e + 1 => if m % 10 = 0 then go (m / 10) e else ⟨m, e + 1⟩

/-- `Dec.ofInt n` is the integer `n` as a decimal fraction. -/
def Dec.ofInt (n : Int) : Dec := ⟨n, 0⟩

/-- Round to `n` fractional digits with Python's round-half-to-even rule
(`round(x, n)`).  For a positive divisor Lean's `/` and `%` on `Int` are
floor division and nonnegative remainder, as in Python. -/
def Dec.roundHalfEvenAt (d : Dec) (n : Nat) : Dec :=
  if d.e ≤ n then d
  else
    let p : Int := (10 : Int) ^ (d.e - n)
    let q := d.m / p
    let r := d.m % p
    let q' :=
      if 2 * r < p then q
      else if p < 2 * r then q + 1
      else if q % 2 = 0 then q else q + 1
    ⟨q', n⟩

/-- Addition of decimal fractions (used by the store model for `ADD`),
result normalised. -/
def Dec.add (a b : Dec) : Dec :=
  let e := max a.e b.e
  Dec.norm ⟨a.m * (10 : Int) ^ (e - a.e) + b.m * (10 : Int) ^ (e - b.e), e⟩

mutual
/-- The Python value model of the repository: `None`, `bool`, `str`, `int`,
`float`, `decimal.Decimal`, `list`, `set` and `dict` (string-keyed). -/
inductive Value where
  | null
  | bool (b : Bool)
  | str (s : String)
  | int (n : Int)
  | float (d : Dec)
  | decimal (d : Dec)
  | list (xs : ValueList)
  | set (xs : ValueList)
  | map (kvs : ValueMap)
deriving DecidableEq, Repr

/-- A list of values (`list` / `set` contents). -/
inductive ValueList where
  | nil
  | cons (head : Value) (tail : ValueList)
deriving DecidableEq, Repr

/-- A string-keyed mapping in insertion order (`dict` contents). -/
inductive ValueMap where
  | nil
  | cons (key : String) (val : Value) (tail : ValueMap)
deriving DecidableEq, Repr
end

instance {ε α : Type} [DecidableEq ε] [DecidableEq α] : DecidableEq (Except ε α) := fun a b =>
  match a, b with
  | .error x, .error y =>
    if h : x = y then .isTrue (by subst h; rfl) else .isFalse (fun hc => h (Except.error.inj hc))
  | .ok x, .ok y =>
    if h : x = y then .isTrue (by subst h; rfl) else .isFalse (fun hc => h (Except.ok.inj hc))
  | .error _, .ok _ => .isFalse (fun hc => Except.noConfusion hc)
  | .ok _, .error _ => .isFalse (fun hc => Except.noConfusion hc)

/-- Membership test on a value list (Python `in`, by value equality). -/
def ValueList.mem (x : Value) : ValueList → Bool
  | .nil => false
  | .cons y ys => x = y || ValueList.mem x ys

/-- Length of a value list. -/
def ValueList.length : ValueList → Nat
  | .nil => 0
  | .cons _ ys => 1 + ValueList.length ys

/-- `xs.get? i` — the `i`-th element, if any. -/
def ValueList.get? : ValueList → Nat → Option Value
  | .nil, _ => none
  | .cons x _, 0 => some x
  | .cons _ xs, i + 1 => ValueList.get? xs i

/-- Append two value lists. -/
def ValueList.append : ValueList → ValueList → ValueList
  | .nil, ys => ys
  | .cons x xs, ys => .cons x (ValueList.append xs ys)

/-- Keep elements satisfying `p`. -/
def ValueList.filter (p : Value → Bool) : ValueList → ValueList
  | .nil => .nil
  | .cons x xs => if p x then .cons x (ValueList.filter p xs) else ValueList.filter p xs

/-- Replace the `i`-th element; if `i` is beyond the end, append at the end
(the store's `SET list[i]` semantics for an out-of-range index). -/
def ValueList.setAt : ValueList → Nat → Value → ValueList
  | .nil, _, v => .cons v .nil
  | .cons _ xs, 0, v => .cons v xs
  | .cons x xs, i + 1, v => .cons x (ValueList.setAt xs i v)

/-- Remove the `i`-th element, if present. -/
def ValueList.removeAt : ValueList → Nat → ValueList
  | .nil, _ => .nil
  | .cons _ xs, 0 => xs
  | .cons x xs, i + 1 => .cons x (ValueList.removeAt xs i)

/-- Building a Python `set` from already-seen elements: keep an element only
if no equal element was inserted before.  Python's hash-based iteration order
is unspecified; the model determinises it to first-insertion order. -/
def ValueList.dedupAux (seen : List Value) : ValueList → ValueList
  | .nil => .nil
  | .cons x xs =>
    if x ∈ seen then ValueList.dedupAux seen xs
    else .cons x (ValueList.dedupAux (x :: seen) xs)

/-- Deduplicate a value list, keeping first occurrences. -/
def ValueList.dedup (xs : ValueList) : ValueList := ValueList.dedupAux [] xs

/-- Lookup in a string-keyed mapping (first matching entry). -/
def ValueMap.find? : ValueMap → String → Option Value
  | .nil, _ => none
  | .cons k v rest, key => if k = key then some v else ValueMap.find? rest key

/-- Set a key (overwriting the first existing entry in place, else appending),
the semantics of Python `d[k] = v`. -/
def ValueMap.setAttr : ValueMap → String → Value → ValueMap
  | .nil, key, v => .cons key v .nil
  | .cons k w rest, key, v =>
    if k = key then .cons k v rest else .cons k w (ValueMap.setAttr rest key v)

/-- Remove a key, if present. -/
def ValueMap.removeAttr : ValueMap → String → ValueMap
  | .nil, _ => .nil
  | .cons k w rest, key =>
    if k = key then rest else .cons k w (ValueMap.removeAttr rest key)

/-- The keys of a mapping, in order. -/
def ValueMap.keys : ValueMap → List String
  | .nil => []
  | .cons k _ rest => k :: ValueMap.keys rest

/-- The error taxonomy of the client.  The repository has a single exception
class `DynamoDBException`; its distinct raise sites are modelled as distinct
constructors so that conditional-check failures are distinguishable from
passed-through transport errors (`clientError`) and from Python-level errors
(`valueError`, `keyError`, `indexError`, `typeError`, `assertionError`). -/
inductive DBError where
  /-- `DynamoDBException("At least one update must be made to the item")`. -/
  | emptyUpdate
  /-- `DynamoDBException(f"Item '{key}' already exists for table '{name}'")`,
  raised when a conditional put reports `ConditionalCheckFailedException`. -/
  | itemAlreadyExists (key : ValueMap) (tableName : String)
  /-- `DynamoDBException(f"The item '{key}' from table '{name}' does not exist")`,
  raised when a conditional update reports `ConditionalCheckFailedException`. -/
  | itemDoesNotExist (key : ValueMap) (tableName : String)
  /-- `DynamoDBException(str(e))` for a store-reported `ValidationException`. -/
  | validationError
  /-- `ValueError(f"Unexpected type '{t}' encountered.")` from the value codec. -/
  | valueError (t : String)
  /-- A `botocore` `ClientError` passed through unmodified. -/
  | clientError (code : String)
  /-- Python `KeyError`. -/
  | keyError
  /-- Python `IndexError`. -/
  | indexError
  /-- Python `TypeError`. -/
  | typeError
  /-- Python `AssertionError`. -/
  | assertionError
  /-- `decimal.InvalidOperation`, raised by `Decimal(string)` on a malformed
  numeric string. -/
  | invalidOperation
deriving DecidableEq, Repr

/-- Digit characters `0`-`9`. -/
def isDigitChar (c : Char) : Bool := decide (48 ≤ c.toNat) && decide (c.toNat ≤ 57)

/-- Numeric value of a big-endian list of digit characters, starting from an
accumulator. -/
def digitsToNat (acc : Nat) : List Char → Nat
  | [] => acc
  | c :: cs => digitsToNat (acc * 10 + (c.toNat - 48)) cs

/-- Decimal digit characters of a natural number, most significant first, by
repeated division; the first argument is structural fuel (the number itself
suffices, the recursion depth being the digit count). -/
def natDigitsCore : Nat → Nat → List Char
  | 0, _ => []
  | _ + 1, 0 => []
  | fuel + 1, n + 1 =>
    natDigitsCore fuel ((n + 1) / 10) ++ [Char.ofNat (48 + (n + 1) % 10)]

/-- Decimal digit characters of a natural number, most significant first
(empty for zero). -/
def natDigits (n : Nat) : List Char := natDigitsCore n n

/-- An optional leading sign, as in Python's numeric-string grammar. -/
def parseSign : List Char → Bool × List Char
  | [] => (false, [])
  | c :: rest =>
    if c = '-' then (true, rest)
    else if c = '+' then (false, rest)
    else (false, c :: rest)

/-- Python `Decimal(string)` on a plain numeric string: an optional sign, a
coefficient of digits with at most one dot and at least one digit, and an
optional exponent introduced by `e` or `E` with an optional sign and at least
one digit.  Anything else raises `decimal.InvalidOperation`.  The result is
kept normalised: a `Decimal`'s observable behaviour in this code base
(equality, `% 1`, `int`, `float`, wire serialisation) depends only on its
numeric value, so the model represents a `Decimal` by that value. -/
def parsePyDecimalCore (cs : List Char) : Except DBError Dec :=
  let p := parseSign cs
  let ip := p.2.takeWhile isDigitChar
  let cs2 := p.2.dropWhile isDigitChar
  let q :=
    match cs2 with
    | c :: rest =>
      if c = '.' then (rest.takeWhile isDigitChar, rest.dropWhile isDigitChar)
      else (([] : List Char), c :: rest)
    | [] => (([] : List Char), ([] : List Char))
  if ip.length + q.1.length = 0 then .error .invalidOperation
  else
    let mag : Int :=
      if p.1 then -(digitsToNat 0 (ip ++ q.1) : Int) else (digitsToNat 0 (ip ++ q.1) : Int)
    match q.2 with
    | [] => .ok (Dec.norm ⟨mag, q.1.length⟩)
    | c :: rest =>
      if c = 'e' ∨ c = 'E' then
        let r := parseSign rest
        let ed := r.2.takeWhile isDigitChar
        let rest2 := r.2.dropWhile isDigitChar
        if ed.length = 0 ∨ rest2 ≠ [] then .error .invalidOperation
        else
          let net : Int :=
            (if r.1 then -(digitsToNat 0 ed : Int) else (digitsToNat 0 ed : Int))
              - (q.1.length : Int)
          if 0 ≤ net then .ok (Dec.norm ⟨mag * (10 : Int) ^ net.toNat, 0⟩)
          else .ok (Dec.norm ⟨mag, net.natAbs⟩)
      else .error .invalidOperation

/-- Python `Decimal(string)`, over the string's character list. -/
def parsePyDecimal (s : String) : Except DBError Dec := parsePyDecimalCore s.data

/-- Python `str` of a float, under the embedding's idealisation of floats as
exact decimal fractions: the shortest decimal representation of the value is
its normalised digit string.  Fixed notation when the decimal exponent lies
in `[-4, 16)`; scientific notation (mantissa with one integer digit, `e`, a
mandatory sign, an exponent of at least two digits) otherwise; integer-valued
floats print with a trailing `.0`. -/
def pyFloatRepr (D : Dec) : String :=
  if D.m = 0 then "0.0"
  else
    let sign : List Char := if D.m < 0 then ['-'] else []
    let ds := natDigits D.m.natAbs
    let k := ds.length
    let exp : Int := (k : Int) - 1 - (D.e : Int)
    if -4 ≤ exp ∧ exp < 16 then
      if D.e = 0 then ⟨sign ++ ds ++ ['.', '0']⟩
      else if D.e < k then ⟨sign ++ ds.take (k - D.e) ++ ['.'] ++ ds.drop (k - D.e)⟩
      else ⟨sign ++ ['0', '.'] ++ List.replicate (D.e - k) '0' ++ ds⟩
    else
      let mds := (ds.reverse.dropWhile (fun c => c == '0')).reverse
      let mant := if mds.length = 1 then mds else mds.take 1 ++ ['.'] ++ mds.drop 1
      let esign := if exp < 0 then '-' else '+'
      let ed := natDigits exp.natAbs
      let ed2 := if ed.length < 2 then List.replicate (2 - ed.length) '0' ++ ed else ed
      ⟨sign ++ mant ++ ['e', esign] ++ ed2⟩

/-- The digit truncation of the asynchronous encoder:
`int_part, decimal_part = number.split("."); f"{int_part}.{decimal_part[:n]}"`
when the string contains a dot (a float repr contains at most one dot, so the
two-way split is the split at the first occurrence), the string unchanged
otherwise. -/
def truncateDecimalPart (s : String) (n : Nat) : String :=
  if '.' ∈ s.data then
    ⟨s.data.takeWhile (fun c => c != '.')⟩ ++ "."
      ++ ⟨((s.data.dropWhile (fun c => c != '.')).drop 1).take n⟩
  else s

/-- The float branch of the asynchronous encoder:
`Decimal(f"{int_part}.{decimal_part[:n_decimals]}")` of `str(round(item, 6))`;
`round` is modelled as decimal rounding half-to-even at six fractional digits
of the exact value, `str` as the shortest-repr formatting of the rounded
value. -/
def encodeFloat (d : Dec) (nDecimals : Nat) : Except DBError Dec :=
  parsePyDecimal (truncateDecimalPart (pyFloatRepr ((d.roundHalfEvenAt 6).norm)) nDecimals)

/-- The rounded value stays below `10 ^ 16` in magnitude, so that Python's
`str` prints it without a positive scientific exponent; in that regime the
encoder's string round trip reproduces the rounded value exactly. -/
def floatInRange (d : Dec) : Bool :=
  decide (((d.roundHalfEvenAt 6).norm).m.natAbs
    < 10 ^ (16 + ((d.roundHalfEvenAt 6).norm).e))

mutual
/-- `_recursive_convert` of `aws_tools/dynamodb_async.py` (the Value Codec).
`toDecimal = true` encodes native values for the wire; `false` decodes wire
values.  Faithful points: Python `bool` is a subclass of `int`, so with
`toDecimal = true` a boolean is caught by the `isinstance(item, (int, float))`
branch and becomes `Decimal(str(round(b, 6)))`, i.e. the number 1 or 0;
`str(round(item, 6))` of an `int` carries no `"."`, so an integer is parsed
back exactly; a `float` goes through the string pipeline `encodeFloat`:
`str(round(item, 6))`, a split at the dot with the fractional part cut to
`nDecimals` characters (`decimal_part[:n_decimals]` — which cuts into digits
or the scientific exponent when `str` used scientific notation), and
`Decimal(...)` on the reassembled string.  Recursive calls pass the default
`n_decimals = 6`, as in the source. -/
def recursiveConvert (item : Value) (toDecimal : Bool) (nDecimals : Nat) : Except DBError Value :=
  match item with
  | .list xs => (recursiveConvertList xs toDecimal).map .list
  | .set xs => (recursiveConvertList xs toDecimal).map (fun ys => .set ys.dedup)
  | .map kvs => (recursiveConvertMap kvs toDecimal).map .map
  | .int n =>
    if toDecimal then .ok (.decimal (Dec.ofInt n)) else .error (.valueError "int")
  | .float d =>
    if toDecimal then (encodeFloat d nDecimals).map .decimal
    else .error (.valueError "float")
  | .bool b =>
    -- `isinstance(True, (int, float))` holds in Python: encoding turns a
    -- boolean into the Decimal 1 or 0; decoding passes booleans through.
    if toDecimal then .ok (.decimal (Dec.ofInt (if b then 1 else 0))) else .ok (.bool b)
  | .decimal d =>
    -- decoding: `float(item) if item % 1 != 0 else int(item)`
    if toDecimal then .error (.valueError "Decimal")
    else .ok (if (Dec.norm d).e = 0 then .int (Dec.norm d).m else .float (Dec.norm d))
  | .null => .ok .null
  | .str s => .ok (.str s)

/-- Elementwise conversion of a `list` (or the elements of a `set`). -/
def recursiveConvertList (xs : ValueList) (toDecimal : Bool) : Except DBError ValueList :=
  match xs with
  | .nil => .ok .nil
  | .cons x xs => do pure (.cons (← recursiveConvert x toDecimal 6) (← recursiveConvertList xs toDecimal))

/-- Entrywise conversion of a `dict`, dropping keys whose value is an empty
set (`if v != set()`). -/
def recursiveConvertMap (kvs : ValueMap) (toDecimal : Bool) : Except DBError ValueMap :=
  match kvs with
  | .nil => .ok .nil
  | .cons k v kvs =>
    if v = .set .nil then recursiveConvertMap kvs toDecimal
    else do pure (.cons k (← recursiveConvert v toDecimal 6) (← recursiveConvertMap kvs toDecimal))
end

mutual
/-- `_recursive_convert` of `aws_tools/dynamoDB.py` (the synchronous file).
It differs from the asynchronous codec: numbers are converted with
`Decimal(item)` exactly (no rounding, no digit truncation) and the `dict`
branch keeps every entry (no empty-set dropping). -/
def recursiveConvertSync (item : Value) (toDecimal : Bool) : Except DBError Value :=
  match item with
  | .list xs => (recursiveConvertSyncList xs toDecimal).map .list
  | .set xs => (recursiveConvertSyncList xs toDecimal).map (fun ys => .set ys.dedup)
  | .map kvs => (recursiveConvertSyncMap kvs toDecimal).map .map
  | .int n =>
    if toDecimal then .ok (.decimal (Dec.ofInt n)) else .error (.valueError "int")
  | .float d =>
    -- `Decimal(item)` of a float is its exact value.
    if toDecimal then .ok (.decimal d.norm) else .error (.valueError "float")
  | .bool b =>
    if toDecimal then .ok (.decimal (Dec.ofInt (if b then 1 else 0))) else .ok (.bool b)
  | .decimal d =>
    if toDecimal then .error (.valueError "Decimal")
    else .ok (if (Dec.norm d).e = 0 then .int (Dec.norm d).m else .float (Dec.norm d))
  | .null => .ok .null
  | .str s => .ok (.str s)

/-- Elementwise synchronous conversion of a `list` / `set`. -/
def recursiveConvertSyncList (xs : ValueList) (toDecimal : Bool) : Except DBError ValueList :=
  match xs with
  | .nil => .ok .nil
  | .cons x xs => do
    pure (.cons (← recursiveConvertSync x toDecimal) (← recursiveConvertSyncList xs toDecimal))

/-- Entrywise synchronous conversion of a `dict` (no empty-set dropping). -/
def recursiveConvertSyncMap (kvs : ValueMap) (toDecimal : Bool) : Except DBError ValueMap :=
  match kvs with
  | .nil => .ok .nil
  | .cons k v kvs => do
    pure (.cons k (← recursiveConvertSync v toDecimal) (← recursiveConvertSyncMap kvs toDecimal))
end

/-- Python-set construction over an arbitrary element type (used for
`set(delete_fields)` and for `{f for arg in args for f in arg ...}`):
keep an element only if it was not inserted before.  The hash-based
iteration order of a Python set is unspecified; the model determinises it
to first-insertion order. -/
def dedupAux {α : Type} [DecidableEq α] (seen : List α) : List α → List α
  | [] => []
  | x :: xs => if x ∈ seen then dedupAux seen xs else x :: dedupAux (x :: seen) xs

/-- Deduplicate, keeping first occurrences. -/
def dedupKF {α : Type} [DecidableEq α] (l : List α) : List α := dedupAux [] l

/-- One step of a field path: a map key or a list index. -/
inductive Step where
  | name (s : String)
  | index (i : Nat)
deriving DecidableEq, Repr

/-- A caller-supplied field path: either a bare string (one map-key step) or
an explicit tuple of strings and integers. -/
inductive PathLike where
  | str (s : String)
  | path (steps : List Step)
deriving DecidableEq, Repr

/-- `(f,) if isinstance(f, str) else f` — normalisation of a path-like. -/
def PathLike.norm : PathLike → List Step
  | .str s => [.name s]
  | .path p => p

/-- The string steps of a path (`f for f in arg if isinstance(f, str)`). -/
def stepNames (p : List Step) : List String :=
  p.filterMap fun st => match st with
    | .name s => some s
    | .index _ => none

/-- `unique_attributes`: the set of attribute names occurring in the paths. -/
def uniqueAttributes (args : List (List Step)) : List String :=
  dedupKF ((args.map stepNames).flatten)

/-- `attributes_mapping = {k: f"#f{i}" for i, k in enumerate(unique_attributes)}`. -/
def attributesMapping (args : List (List Step)) : List (String × String) :=
  (uniqueAttributes args).enum.map fun p => (p.2, "#f" ++ toString p.1)

/-- `attributes_mapping[f]` (the mapping is total on the names of the paths
it was built from; the default is never reached there). -/
def lookupToken (mapping : List (String × String)) (k : String) : String :=
  (mapping.lookup k).getD ""

/-- Python `str.strip(".")`: remove leading and trailing dots. -/
def stripDots (s : String) : String :=
  String.mk (((s.data.dropWhile (· = '.')).reverse.dropWhile (· = '.')).reverse)

/-- Render one path against the alias mapping:
`"".join("." + attributes_mapping[f] if isinstance(f, str) else f"[{f}]" for f in arg).strip(".")`. -/
def renderPath (mapping : List (String × String)) (p : List Step) : String :=
  stripDots (String.join (p.map fun st => match st with
    | .name s => "." ++ lookupToken mapping s
    | .index i => "[" ++ toString i ++ "]"))

/-- `_field_path_to_expression` (identical in both source files): returns the
rendered expressions, one per argument, and `attribute_names`, the reverse
mapping placeholder-token to attribute name. -/
def fieldPathToExpression (args : List PathLike) : List String × List (String × String) :=
  let nargs := args.map PathLike.norm
  let mapping := attributesMapping nargs
  (nargs.map (renderPath mapping), mapping.map fun p => (p.2, p.1))

/-- The declared key schema of one table: the partition (`HASH`) attribute
name and the optional sort (`RANGE`) attribute name. -/
structure TableKeys where
  hash : String
  range : Option String
deriving DecidableEq, Repr

/-- `table_keys.values()` of the `{KeyType: AttributeName}` dict, in key
schema order (partition attribute first). -/
def TableKeys.values (tk : TableKeys) : List String :=
  tk.hash :: (match tk.range with
    | some r => [r]
    | none => [])

/-- `_key_exists_condition`: conjunction of `attribute_exists` predicates over
the partition attribute and, when declared, the sort attribute, each written
through the reverse of `attribute_names`. -/
def keyExistsCondition (tk : TableKeys) (attribute_names : List (String × String)) : String :=
  let attributes_mapping := attribute_names.map fun p => (p.2, p.1)
  "attribute_exists(" ++ lookupToken attributes_mapping tk.hash ++ ")" ++
    (match tk.range with
     | some r => " AND attribute_exists(" ++ lookupToken attributes_mapping r ++ ")"
     | none => "")

/-- `_key_not_exists_condition`: as `keyExistsCondition` with
`attribute_not_exists`. -/
def keyNotExistsCondition (tk : TableKeys) (attribute_names : List (String × String)) : String :=
  let attributes_mapping := attribute_names.map fun p => (p.2, p.1)
  "attribute_not_exists(" ++ lookupToken attributes_mapping tk.hash ++ ")" ++
    (match tk.range with
     | some r => " AND attribute_not_exists(" ++ lookupToken attributes_mapping r ++ ")"
     | none => "")

/-- The six operation-category arguments of `update_item` /
`update_item_async`, in the source's parameter order.  Python dicts are
embedded as association lists in insertion order; `extend_arrays` values are
lists (`list(value)` is applied by the source before conversion). -/
structure UpdateArgs where
  put_fields : List (PathLike × Value) := []
  increment_fields : List (PathLike × Value) := []
  extend_sets : List (PathLike × Value) := []
  remove_from_sets : List (PathLike × Value) := []
  extend_arrays : List (PathLike × ValueList) := []
  delete_fields : List PathLike := []
deriving DecidableEq, Repr

/-- `delete_fields = set(delete_fields)`. -/
def UpdateArgs.deleteSet (a : UpdateArgs) : List PathLike := dedupKF a.delete_fields

/-- `sum(len(v) for v in (put_fields, increment_fields, extend_sets,
remove_from_sets, extend_arrays, delete_fields))`, with `delete_fields`
already replaced by its set. -/
def UpdateArgs.size (a : UpdateArgs) : Nat :=
  a.put_fields.length + a.increment_fields.length + a.extend_sets.length
    + a.remove_from_sets.length + a.extend_arrays.length + a.deleteSet.length

/-- The argument list handed to `_field_path_to_expression` by `update_item`:
put, extend-array, increment, extend-set, remove-from-set and delete paths in
that order, followed by the table's key attributes when
`create_item_if_missing` is false. -/
def updateAllPaths (tk : TableKeys) (a : UpdateArgs) (createItemIfMissing : Bool) : List PathLike :=
  (a.put_fields.map Prod.fst) ++ (a.extend_arrays.map Prod.fst)
    ++ (a.increment_fields.map Prod.fst) ++ (a.extend_sets.map Prod.fst)
    ++ (a.remove_from_sets.map Prod.fst) ++ a.deleteSet
    ++ (if createItemIfMissing then [] else tk.values.map PathLike.str)

/-- `value = value if isinstance(value, set) else {value}` — the
`remove_from_sets` wrapping of a scalar member into a one-element set. -/
def wrapSet (v : Value) : Value :=
  match v with
  | .set _ => v
  | v => .set (.cons v .nil)

/-- `" ".join(f"{kw} {', '.join(expr)}" for kw, expr in groups if len(expr) > 0)`:
each clause group is emitted only if non-empty, comma-joined inside the
clause, and the clauses are space-joined, each prefixed by its keyword. -/
def joinClauses (groups : List (String × List String)) : String :=
  String.intercalate " "
    ((groups.filter (fun g => !g.2.isEmpty)).map fun g =>
      g.1 ++ " " ++ String.intercalate ", " g.2)

/-- The compiled update request: the update expression, the value placeholder
table (`ExpressionAttributeValues`), the name placeholder table
(`ExpressionAttributeNames`) and the optional condition expression. -/
structure UpdateRequest where
  expression : String
  attributeValues : List (String × Value)
  attributeNames : List (String × String)
  condition : Option String
deriving DecidableEq, Repr

/-- The request-compilation phase of `update_item_async`
(`aws_tools/dynamodb_async.py`, lines 613-649): the empty-plan check, the
shared alias table over all category paths, the per-category clause
expressions consumed from the shared expression tuple in source order
(put, append, increment, add-to-set, remove-from-set, delete), the value
placeholder table, and the key-exists condition unless
`create_item_if_missing`.  The `:empty_list` placeholder is inserted when the
first append operation is processed and rewritten (same key, same value, same
dict position) by every further append iteration. -/
def compileUpdateAsync (tk : TableKeys) (a : UpdateArgs) (createItemIfMissing : Bool) :
    Except DBError UpdateRequest :=
  if a.size = 0 then .error .emptyUpdate
  else
    let all := updateAllPaths tk a createItemIfMissing
    let exprs := (fieldPathToExpression all).1
    let attribute_names := (fieldPathToExpression all).2
    let ePut := exprs.take a.put_fields.length
    let rest1 := exprs.drop a.put_fields.length
    let eArr := rest1.take a.extend_arrays.length
    let rest2 := rest1.drop a.extend_arrays.length
    let eInc := rest2.take a.increment_fields.length
    let rest3 := rest2.drop a.increment_fields.length
    let eSet := rest3.take a.extend_sets.length
    let rest4 := rest3.drop a.extend_sets.length
    let eRem := rest4.take a.remove_from_sets.length
    let rest5 := rest4.drop a.remove_from_sets.length
    let eDel := rest5.take a.deleteSet.length
    do
    let putVals ← (a.put_fields.map Prod.snd).mapM (fun v => recursiveConvert v true 6)
    let arrVals ← (a.extend_arrays.map Prod.snd).mapM (fun xs => recursiveConvert (.list xs) true 6)
    let incVals ← (a.increment_fields.map Prod.snd).mapM (fun v => recursiveConvert v true 6)
    let setVals ← (a.extend_sets.map Prod.snd).mapM (fun v => recursiveConvert v true 6)
    let remVals ← (a.remove_from_sets.map Prod.snd).mapM (fun v => recursiveConvert (wrapSet v) true 6)
    let set_expressions :=
      (ePut.enum.map fun p => p.2 ++ " = :set_value" ++ toString p.1)
        ++ (eArr.enum.map fun p =>
              p.2 ++ " = list_append(if_not_exists(" ++ p.2 ++ ", :empty_list), :extend_value"
                ++ toString p.1 ++ ")")
    let add_expressions :=
      (eInc.enum.map fun p => p.2 ++ " :add_value" ++ toString p.1)
        ++ (eSet.enum.map fun p => p.2 ++ " :insert_value" ++ toString p.1)
    let delete_expressions := eRem.enum.map fun p => p.2 ++ " :pop_value" ++ toString p.1
    let remove_expressions := eDel
    let expression := joinClauses
      [("SET", set_expressions), ("ADD", add_expressions),
        ("DELETE", delete_expressions), ("REMOVE", remove_expressions)]
    let attribute_values :=
      (putVals.enum.map fun p => (":set_value" ++ toString p.1, p.2))
        ++ (match arrVals.enum with
            | [] => []
            | p :: rest =>
              (":extend_value" ++ toString p.1, p.2) :: (":empty_list", .list .nil)
                :: rest.map fun p => (":extend_value" ++ toString p.1, p.2))
        ++ (incVals.enum.map fun p => (":add_value" ++ toString p.1, p.2))
        ++ (setVals.enum.map fun p => (":insert_value" ++ toString p.1, p.2))
        ++ (remVals.enum.map fun p => (":pop_value" ++ toString p.1, p.2))
    pure {
      expression := expression
      attributeValues := attribute_values
      attributeNames := attribute_names
      condition := if createItemIfMissing then none
                   else some (keyExistsCondition tk attribute_names) }

/-- The request-compilation phase of the synchronous `update_item`
(`aws_tools/dynamoDB.py`, lines 499-534).  It differs from the asynchronous
compiler in exactly two points: the append template is
`f"{expr} = list_append({expr}, :extend_value{i})"` — no `if_not_exists`
seeding and no `:empty_list` placeholder — and values are converted by the
synchronous codec. -/
def compileUpdateSync (tk : TableKeys) (a : UpdateArgs) (createItemIfMissing : Bool) :
    Except DBError UpdateRequest :=
  if a.size = 0 then .error .emptyUpdate
  else
    let all := updateAllPaths tk a createItemIfMissing
    let exprs := (fieldPathToExpression all).1
    let attribute_names := (fieldPathToExpression all).2
    let ePut := exprs.take a.put_fields.length
    let rest1 := exprs.drop a.put_fields.length
    let eArr := rest1.take a.extend_arrays.length
    let rest2 := rest1.drop a.extend_arrays.length
    let eInc := rest2.take a.increment_fields.length
    let rest3 := rest2.drop a.increment_fields.length
    let eSet := rest3.take a.extend_sets.length
    let rest4 := rest3.drop a.extend_sets.length
    let eRem := rest4.take a.remove_from_sets.length
    let rest5 := rest4.drop a.remove_from_sets.length
    let eDel := rest5.take a.deleteSet.length
    do
    let putVals ← (a.put_fields.map Prod.snd).mapM (fun v => recursiveConvertSync v true)
    let arrVals ← (a.extend_arrays.map Prod.snd).mapM (fun xs => recursiveConvertSync (.list xs) true)
    let incVals ← (a.increment_fields.map Prod.snd).mapM (fun v => recursiveConvertSync v true)
    let setVals ← (a.extend_sets.map Prod.snd).mapM (fun v => recursiveConvertSync v true)
    let remVals ← (a.remove_from_sets.map Prod.snd).mapM (fun v => recursiveConvertSync (wrapSet v) true)
    let set_expressions :=
      (ePut.enum.map fun p => p.2 ++ " = :set_value" ++ toString p.1)
        ++ (eArr.enum.map fun p =>
              p.2 ++ " = list_append(" ++ p.2 ++ ", :extend_value" ++ toString p.1 ++ ")")
    let add_expressions :=
      (eInc.enum.map fun p => p.2 ++ " :add_value" ++ toString p.1)
        ++ (eSet.enum.map fun p => p.2 ++ " :insert_value" ++ toString p.1)
    let delete_expressions := eRem.enum.map fun p => p.2 ++ " :pop_value" ++ toString p.1
    let remove_expressions := eDel
    let expression := joinClauses
      [("SET", set_expressions), ("ADD", add_expressions),
        ("DELETE", delete_expressions), ("REMOVE", remove_expressions)]
    let attribute_values :=
      (putVals.enum.map fun p => (":set_value" ++ toString p.1, p.2))
        ++ (arrVals.enum.map fun p => (":extend_value" ++ toString p.1, p.2))
        ++ (incVals.enum.map fun p => (":add_value" ++ toString p.1, p.2))
        ++ (setVals.enum.map fun p => (":insert_value" ++ toString p.1, p.2))
        ++ (remVals.enum.map fun p => (":pop_value" ++ toString p.1, p.2))
    pure {
      expression := expression
      attributeValues := attribute_values
      attributeNames := attribute_names
      condition := if createItemIfMissing then none
                   else some (keyExistsCondition tk attribute_names) }

/-- Modelled from the spec: the update-expression assembly of section 4.3 —
"four clause groups, emitted only if non-empty, each joined within the
clause and joined across clauses with the clause keyword", with the SET
clause holding straight assignments for put operations and, for append, a
list-concatenation call seeded with an empty-list default; the ADD clause
holding increments and add-to-set; the DELETE clause remove-from-set; the
REMOVE clause plain deletions.  Each category renders its own paths against
the one request-scoped alias table. -/
def specUpdateExpression (tk : TableKeys) (a : UpdateArgs) (createItemIfMissing : Bool) : String :=
  let mapping := attributesMapping ((updateAllPaths tk a createItemIfMissing).map PathLike.norm)
  let rdr := fun (f : PathLike) => renderPath mapping f.norm
  let setG :=
    (a.put_fields.enum.map fun p => rdr p.2.1 ++ " = :set_value" ++ toString p.1)
      ++ (a.extend_arrays.enum.map fun p =>
            rdr p.2.1 ++ " = list_append(if_not_exists(" ++ rdr p.2.1 ++ ", :empty_list), :extend_value"
              ++ toString p.1 ++ ")")
  let addG :=
    (a.increment_fields.enum.map fun p => rdr p.2.1 ++ " :add_value" ++ toString p.1)
      ++ (a.extend_sets.enum.map fun p => rdr p.2.1 ++ " :insert_value" ++ toString p.1)
  let delG := a.remove_from_sets.enum.map fun p => rdr p.2.1 ++ " :pop_value" ++ toString p.1
  let remG := a.deleteSet.map rdr
  joinClauses [("SET", setG), ("ADD", addG), ("DELETE", delG), ("REMOVE", remG)]

/-- Python `pat in hay` on strings: contiguous substring test. -/
def strContainsSub (hay pat : String) : Bool := go hay.data
where
  go : List Char → Bool
  | [] => pat.data.isEmpty
  | l@(_ :: rest) => pat.data.isPrefixOf l || go rest

/-- `_field_exists` of `aws_tools/dynamodb_async.py`: walk the path; a string
step absent from a mapping, or an integer step on a non-list or out of range,
answers `False`.  Faithful corners of the Python loop: `key in item` on a
list/set is element membership and on a string a substring test, after which
`item[key]` with a string key raises `TypeError`; `key in item` on a number
or `None` raises `TypeError` at the test itself. -/
def fieldExists (item : Value) : List Step → Except DBError Bool
  | [] => .ok true
  | .name k :: rest =>
    match item with
    | .map kvs =>
      match kvs.find? k with
      | none => .ok false
      | some v => fieldExists v rest
    | .list xs => if xs.mem (.str k) then .error .typeError else .ok false
    | .set xs => if xs.mem (.str k) then .error .typeError else .ok false
    | .str s => if strContainsSub s k then .error .typeError else .ok false
    | _ => .error .typeError
  | .index i :: rest =>
    match item with
    | .list xs =>
      match xs.get? i with
      | some v => fieldExists v rest
      | none => .ok false
    | _ => .ok false

/-- `_extract_item_field_value`: `for key in field_path: item = item[key]`,
with Python's `KeyError` / `IndexError` / `TypeError` on failure (string
indexing yields a one-character string). -/
def extractItemFieldValue (item : Value) : List Step → Except DBError Value
  | [] => .ok item
  | .name k :: rest =>
    match item with
    | .map kvs =>
      match kvs.find? k with
      | some v => extractItemFieldValue v rest
      | none => .error .keyError
    | _ => .error .typeError
  | .index i :: rest =>
    match item with
    | .list xs =>
      match xs.get? i with
      | some v => extractItemFieldValue v rest
      | none => .error .indexError
    | .str s =>
      match s.data.get? i with
      | some c => extractItemFieldValue (.str (String.mk [c])) rest
      | none => .error .indexError
    | .map _ => .error .keyError
    | _ => .error .typeError

/-- One table of the remote store: its declared key schema, its name and its
stored (wire-encoded) items.  Modelled from the spec (§6): the transport
collaborator holds the items and evaluates conditions atomically with each
write. -/
structure Table where
  keys : TableKeys
  name : String
  items : List ValueMap
deriving DecidableEq, Repr

/-- `{k: key_or_item[k] for k in table_keys.values()}` (Python `KeyError`
when a declared key attribute is absent from the argument). -/
def extractKey (tk : TableKeys) (koi : ValueMap) : Except DBError ValueMap :=
  match koi.find? tk.hash with
  | none => .error .keyError
  | some h =>
    match tk.range with
    | none => .ok (.cons tk.hash h .nil)
    | some r =>
      match koi.find? r with
      | none => .error .keyError
      | some v => .ok (.cons tk.hash h (.cons r v .nil))

/-- Modelled from the spec (§3 Key): the projection of an item onto the
declared key attributes, by which the store addresses items. -/
def keyProj (tk : TableKeys) (it : ValueMap) : Option Value × Option (Option Value) :=
  (it.find? tk.hash, tk.range.map fun r => it.find? r)

/-- Modelled from the spec (§6): the store's lookup of the item whose key
attributes equal those of `encKey`. -/
def findByKey (t : Table) (encKey : ValueMap) : Option ValueMap :=
  t.items.find? fun it => keyProj t.keys it = keyProj t.keys encKey

/-- Modelled from the spec (§6): an unconditional write replaces the item
stored under the same key, else appends the new item. -/
def replaceOrAdd (t : Table) (newIt : ValueMap) : List ValueMap :=
  if (findByKey t newIt).isSome then
    t.items.map fun it => if keyProj t.keys it = keyProj t.keys newIt then newIt else it
  else t.items ++ [newIt]

/-- `put_item` / `put_item_async`: asserts the key attributes are present,
encodes the item with the Value Codec, and issues a conditional put carrying
`_key_not_exists_condition` unless `overwrite`.  The store evaluates the
condition atomically: when it fails nothing is written and the client maps
`ConditionalCheckFailedException` to the "already exists" `DynamoDBException`.
With `ReturnValues="ALL_OLD"` (`return_object`) the overwritten item, if any,
is decoded and returned; otherwise `None`. -/
def put_item (t : Table) (item : ValueMap) (overwrite return_object : Bool) :
    Table × Except DBError (Option ValueMap) :=
  if ¬ (t.keys.values.all fun k => (item.find? k).isSome) then (t, .error .assertionError)
  else
    match recursiveConvertMap item true with
    | .error e => (t, .error e)
    | .ok enc =>
      match findByKey t enc, overwrite with
      | some _, false =>
        (t, .error (.itemAlreadyExists ((extractKey t.keys item).toOption.getD .nil) t.name))
      | old?, _ =>
        let t' := { t with items := replaceOrAdd t enc }
        match (if return_object then old? else none) with
        | none => (t', .ok none)
        | some old =>
          match recursiveConvertMap old false with
          | .error e => (t', .error e)
          | .ok dec => (t', .ok (some dec))

/-- Modelled from the spec: navigation to a document path inside an item,
applying `f` to the (possibly absent) value at the final step; a `none`
result removes the entry.  A missing intermediate step is the store's
"document path does not exist" `ValidationException`. -/
def updateAtPath (v : Value) (p : List Step) (f : Option Value → Except DBError (Option Value)) :
    Except DBError Value :=
  match p with
  | [] => .error .validationError
  | [st] =>
    match v, st with
    | .map kvs, .name k => do
      match ← f (kvs.find? k) with
      | some w => pure (.map (kvs.setAttr k w))
      | none => pure (.map (kvs.removeAttr k))
    | .list xs, .index i => do
      match ← f (xs.get? i) with
      | some w => pure (.list (xs.setAt i w))
      | none => pure (.list (xs.removeAt i))
    | _, _ => .error .validationError
  | st :: rest =>
    match v, st with
    | .map kvs, .name k =>
      match kvs.find? k with
      | some sub => do pure (.map (kvs.setAttr k (← updateAtPath sub rest f)))
      | none => .error .validationError
    | .list xs, .index i =>
      match xs.get? i with
      | some sub => do pure (.list (xs.setAt i (← updateAtPath sub rest f)))
      | none => .error .validationError
    | _, _ => .error .validationError

/-- Modelled from the spec (§4.3 SET): straight assignment. -/
def opPut (w : Value) : Option Value → Except DBError (Option Value) := fun _ => .ok (some w)

/-- Modelled from the spec (§4.3 SET append):
`list_append(if_not_exists(path, :empty_list), :v)` — an absent target reads
as the empty list, so the target need not pre-exist. -/
def opAppend (w : Value) : Option Value → Except DBError (Option Value) := fun cur =>
  match w, cur with
  | .list ws, none => .ok (some (.list ws))
  | .list ws, some (.list xs) => .ok (some (.list (xs.append ws)))
  | _, _ => .error .validationError

/-- Modelled from the spec (§4.3 ADD): the store's `ADD` action — numeric
addition with an absent attribute read as zero, so a missing field becomes
the increment amount itself; set union with an absent attribute read as the
empty set. -/
def opAdd (w : Value) : Option Value → Except DBError (Option Value) := fun cur =>
  match w, cur with
  | .decimal d, none => .ok (some (.decimal d))
  | .decimal d, some (.decimal d0) => .ok (some (.decimal (Dec.add d0 d)))
  | .set ws, none => .ok (some (.set ws))
  | .set ws, some (.set xs) => .ok (some (.set (xs.append (ws.filter fun y => !xs.mem y))))
  | _, _ => .error .validationError

/-- Modelled from the spec (§4.3 DELETE and §3): remove the listed members
from a set attribute; a set made empty is deleted from the item rather than
stored empty; an absent attribute stays absent. -/
def opDeleteFromSet (w : Value) : Option Value → Except DBError (Option Value) := fun cur =>
  match w, cur with
  | .set _, none => .ok none
  | .set ws, some (.set xs) =>
    let r := xs.filter fun y => !ws.mem y
    .ok (if r = .nil then none else some (.set r))
  | _, _ => .error .validationError

/-- Modelled from the spec (§4.3 REMOVE): plain deletion of the field. -/
def opRemove : Option Value → Except DBError (Option Value) := fun _ => .ok none

/-- Modelled from the spec: the store's application of the compiled update
expression to the addressed item, clause by clause in emitted order (SET
puts, SET appends, ADD increments, ADD set-extensions, DELETE, REMOVE), the
operation values being exactly the codec-encoded values the request carries. -/
def applyUpdatePlan (base : ValueMap) (a : UpdateArgs) : Except DBError ValueMap := do
  let apply1 : ValueMap → List Step → (Option Value → Except DBError (Option Value)) →
      Except DBError ValueMap := fun m p f => do
    match ← updateAtPath (.map m) p f with
    | .map m' => pure m'
    | _ => .error .validationError
  let b1 ← a.put_fields.foldlM
    (fun m pv => do apply1 m pv.1.norm (opPut (← recursiveConvert pv.2 true 6))) base
  let b2 ← a.extend_arrays.foldlM
    (fun m pv => do apply1 m pv.1.norm (opAppend (← recursiveConvert (.list pv.2) true 6))) b1
  let b3 ← a.increment_fields.foldlM
    (fun m pv => do apply1 m pv.1.norm (opAdd (← recursiveConvert pv.2 true 6))) b2
  let b4 ← a.extend_sets.foldlM
    (fun m pv => do apply1 m pv.1.norm (opAdd (← recursiveConvert pv.2 true 6))) b3
  let b5 ← a.remove_from_sets.foldlM
    (fun m pv => do apply1 m pv.1.norm (opDeleteFromSet (← recursiveConvert (wrapSet pv.2) true 6))) b4
  a.deleteSet.foldlM (fun m p => apply1 m p.norm opRemove) b5

/-- The first step of a path, when it is an attribute name. -/
def firstName (p : List Step) : Option String :=
  match p with
  | .name s :: _ => some s
  | _ => none

/-- The top-level attribute names touched by the plan (for
`ReturnValues="UPDATED_NEW"`). -/
def touchedTopNames (a : UpdateArgs) : List String :=
  ((a.put_fields.map Prod.fst) ++ (a.extend_arrays.map Prod.fst)
    ++ (a.increment_fields.map Prod.fst) ++ (a.extend_sets.map Prod.fst)
    ++ (a.remove_from_sets.map Prod.fst) ++ a.deleteSet).filterMap fun f => firstName f.norm

/-- Restriction of a mapping to the listed keys. -/
def restrictKeys (m : ValueMap) (ks : List String) : ValueMap :=
  match m with
  | .nil => .nil
  | .cons k v rest => if k ∈ ks then .cons k v (restrictKeys rest ks) else restrictKeys rest ks

/-- `update_item_async` (`aws_tools/dynamodb_async.py`, lines 611-669),
composed with the store model: empty-plan check, key extraction, request
compilation, then the transport call — the key-exists condition (attached
unless `create_item_if_missing`) evaluated atomically, `apply` of the update
expression, and mapping of `ConditionalCheckFailedException` to the
"does not exist" `DynamoDBException` and of a store `ValidationException` to
a `DynamoDBException`.  With `return_object`, `UPDATED_NEW` returns the
decoded new values of the touched top-level attributes. -/
def update_item (t : Table) (koi : ValueMap) (a : UpdateArgs)
    (createItemIfMissing return_object : Bool) :
    Table × Except DBError (Option ValueMap) :=
  if a.size = 0 then (t, .error .emptyUpdate)
  else
    match extractKey t.keys koi with
    | .error e => (t, .error e)
    | .ok key =>
      match compileUpdateAsync t.keys a createItemIfMissing with
      | .error e => (t, .error e)
      | .ok _req =>
        match recursiveConvertMap key true with
        | .error e => (t, .error e)
        | .ok encKey =>
          match findByKey t encKey, createItemIfMissing with
          | none, false => (t, .error (.itemDoesNotExist key t.name))
          | found?, _ =>
            let base := found?.getD encKey
            match applyUpdatePlan base a with
            | .error _ => (t, .error .validationError)
            | .ok newIt =>
              let t' := { t with items := replaceOrAdd t newIt }
              if ¬return_object then (t', .ok none)
              else
                match recursiveConvertMap (restrictKeys newIt (touchedTopNames a)) false with
                | .error e => (t', .error e)
                | .ok dec => (t', .ok (some dec))

/-- `get_item` / `get_item_async`: fetch by key and decode; `None` when the
item does not exist. -/
def get_item (t : Table) (koi : ValueMap) : Except DBError (Option ValueMap) := do
  let key ← extractKey t.keys koi
  let encKey ← recursiveConvertMap key true
  match findByKey t encKey with
  | none => .ok none
  | some it => do pure (some (← recursiveConvertMap it false))

/-- The post-processing of `get_item_fields_async`:
`{f: _extract_item_field_value(item, f) for f in fields if _field_exists(item, f)}` —
keep, in order, the requested fields that exist on the returned item, each
with its extracted value. -/
def collectExistingFields (item : ValueMap) : List PathLike → Except DBError (List (PathLike × Value))
  | [] => .ok []
  | f :: rest => do
    let b ← fieldExists (.map item) f.norm
    if b then do
      let v ← extractItemFieldValue (.map item) f.norm
      pure ((f, v) :: (← collectExistingFields item rest))
    else collectExistingFields item rest

/-- `_recursive_convert(fields, to_decimal=False)` applied to the result
dict of `get_item_fields_async`, whose keys are path-likes: the dict branch
of the codec — drop entries whose value is an empty set, decode the rest. -/
def decodeFieldPairs : List (PathLike × Value) → Except DBError (List (PathLike × Value))
  | [] => .ok []
  | (f, v) :: rest =>
    if v = .set .nil then decodeFieldPairs rest
    else do pure ((f, ← recursiveConvert v false 6) :: (← decodeFieldPairs rest))

/-- `get_item_fields_async` (`aws_tools/dynamodb_async.py`, lines 672-713)
composed with the store model.  The `ProjectionExpression` narrowing is
modelled as the store returning the stored item itself: per the spec the
projection only bounds the transferred bytes, and the client-side
existence filter and extraction read the same answers from the full item. -/
def get_item_fields_async (t : Table) (koi : ValueMap) (fields : List PathLike) :
    Except DBError (Option (List (PathLike × Value))) := do
  let key ← extractKey t.keys koi
  let encKey ← recursiveConvertMap key true
  match findByKey t encKey with
  | none => .ok none
  | some item => do
    let pairs ← collectExistingFields item fields
    pure (some (← decodeFieldPairs pairs))

/-- The post-processing of the synchronous `get_item_fields`:
`{f: _extract_item_field_value(item, f) for f in fields}` — no existence
filter; extraction of an absent field raises. -/
def collectFieldsSync (item : ValueMap) : List PathLike → Except DBError (List (PathLike × Value))
  | [] => .ok []
  | f :: rest => do
    let v ← extractItemFieldValue (.map item) f.norm
    pure ((f, v) :: (← collectFieldsSync item rest))

/-- The final `_recursive_convert(fields, to_decimal=False)` of the
synchronous file (its dict branch has no empty-set dropping). -/
def decodeFieldPairsSync : List (PathLike × Value) → Except DBError (List (PathLike × Value))
  | [] => .ok []
  | (f, v) :: rest => do pure ((f, ← recursiveConvertSync v false) :: (← decodeFieldPairsSync rest))

/-- The synchronous `get_item_fields` (`aws_tools/dynamoDB.py`, lines
557-574) composed with the store model. -/
def get_item_fields_sync (t : Table) (koi : ValueMap) (fields : List PathLike) :
    Except DBError (Option (List (PathLike × Value))) := do
  let key ← extractKey t.keys koi
  let encKey ← recursiveConvertSyncMap key true
  match findByKey t encKey with
  | none => .ok none
  | some item => do
    let pairs ← collectFieldsSync item fields
    pure (some (← decodeFieldPairsSync pairs))

/-- Is the value a Python scalar (hashable leaf)? -/
def Value.isScalar : Value → Bool
  | .null | .bool _ | .str _ | .int _ | .float _ | .decimal _ => true
  | _ => false

/-- The native number a wire decimal decodes to: an integer when the decimal
has no fractional part, else a float. -/
def decNative (d : Dec) : Value :=
  if (Dec.norm d).e = 0 then .int (Dec.norm d).m else .float (Dec.norm d)

/-- The scalar branches of the encoder as a pure function. -/
def encScalar : Value → Value
  | .int n => .decimal (Dec.ofInt n)
  | .float d => .decimal ((d.roundHalfEvenAt 6).norm)
  | .bool b => .decimal (Dec.ofInt (if b then 1 else 0))
  | v => v

/-- The scalar branches of the decoder as a pure function. -/
def decScalar : Value → Value
  | .decimal d => decNative d
  | v => v

/-- Scalar values as they appear on the wire after encoding: numbers are
normalised decimals, strings and null pass through. -/
def wireScalar : Value → Bool
  | .decimal d => Dec.norm d = d
  | .str _ => true
  | .null => true
  | _ => false

/-- All members of a wire set are wire scalars. -/
def wireScalars : ValueList → Bool
  | .nil => true
  | .cons x xs => wireScalar x && wireScalars xs

mutual
/-- A native value the Value Codec round-trips exactly: no `Decimal` inside
(encoding a `Decimal` raises), sets non-empty with scalar members (spec
section 3: "set-of-{string|number|binary} (homogeneous, non-empty)"), and
floats whose rounded value stays below `10 ^ 16` in magnitude, where the
encoder's `str`-split-slice-`Decimal` pipeline is exact (above it, `str`
switches to scientific notation and `decimal_part[:6]` cuts into the digits
or the exponent). -/
def wf : Value → Bool
  | .null => true
  | .bool _ => true
  | .str _ => true
  | .int _ => true
  | .float d => floatInRange d
  | .decimal _ => false
  | .list xs => wfList xs
  | .set xs => (match xs with | .nil => false | _ => true) && wfScalars xs
  | .map kvs => wfMap kvs

/-- All list members representable. -/
def wfList : ValueList → Bool
  | .nil => true
  | .cons x xs => wf x && wfList xs

/-- All set members scalar and representable. -/
def wfScalars : ValueList → Bool
  | .nil => true
  | .cons x xs => (x.isScalar && wf x) && wfScalars xs

/-- All map entry values representable. -/
def wfMap : ValueMap → Bool
  | .nil => true
  | .cons _ v kvs => wf v && wfMap kvs
end

mutual
/-- The fixed point of the codec round trip at six-digit precision: numbers
are rounded to six fractional digits, booleans become the integers 1/0
(Python `bool` being an `int` subtype), rounded floats without fractional
part become integers, sets are deduplicated at that precision. -/
def canon : Value → Value
  | .null => .null
  | .bool b => .int (if b then 1 else 0)
  | .str s => .str s
  | .int n => .int n
  | .float d => decNative ((d.roundHalfEvenAt 6).norm)
  | .decimal d => decNative d
  | .list xs => .list (canonList xs)
  | .set xs => .set (canonList xs).dedup
  | .map kvs => .map (canonMap kvs)

/-- `canon` over list members. -/
def canonList : ValueList → ValueList
  | .nil => .nil
  | .cons x xs => .cons (canon x) (canonList xs)

/-- `canon` over map entry values. -/
def canonMap : ValueMap → ValueMap
  | .nil => .nil
  | .cons k v kvs => .cons k (canon v) (canonMap kvs)
end

mutual
/-- No map entry, at any depth, holds an empty set. -/
def noEmptySetMapEntries : Value → Bool
  | .list xs => noEmptySetMapEntriesList xs
  | .set xs => noEmptySetMapEntriesList xs
  | .map kvs => noEmptySetMapEntriesMap kvs
  | _ => true

/-- `noEmptySetMapEntries` over list members. -/
def noEmptySetMapEntriesList : ValueList → Bool
  | .nil => true
  | .cons x xs => noEmptySetMapEntries x && noEmptySetMapEntriesList xs

/-- `noEmptySetMapEntries` over map entries, also requiring no entry value
to be an empty set. -/
def noEmptySetMapEntriesMap : ValueMap → Bool
  | .nil => true
  | .cons _ v kvs => (decide (v ≠ .set .nil) && noEmptySetMapEntries v) && noEmptySetMapEntriesMap kvs
end

mutual
/-- Does an empty set occur anywhere inside the value? -/
def containsEmptySet : Value → Bool
  | .set .nil => true
  | .set xs => containsEmptySetList xs
  | .list xs => containsEmptySetList xs
  | .map kvs => containsEmptySetMap kvs
  | _ => false

/-- `containsEmptySet` over list members. -/
def containsEmptySetList : ValueList → Bool
  | .nil => false
  | .cons x xs => containsEmptySet x || containsEmptySetList xs

/-- `containsEmptySet` over map entries. -/
def containsEmptySetMap : ValueMap → Bool
  | .nil => false
  | .cons _ v kvs => containsEmptySet v || containsEmptySetMap kvs
end

/-- Map a function over a value list. -/
def ValueList.map (f : Value → Value) : ValueList → ValueList
  | .nil => .nil
  | .cons x xs => .cons (f x) (ValueList.map f xs)

/-- A one-attribute key schema, partition attribute `"id"`. -/
def exampleKeys : TableKeys := { hash := "id", range := none }

/-- The key `{id: "a"}`. -/
def exampleKeyA : ValueMap := .cons "id" (.str "a") .nil

/-- A table holding the single item `{id: "a"}` (the `counter` field absent). -/
def exampleTableA : Table :=
  { keys := exampleKeys, name := "T", items := [.cons "id" (.str "a") .nil] }

/-- A table holding the single item `{id: "a", f: 10}` (wire form). -/
def exampleTableF : Table :=
  { keys := exampleKeys, name := "T",
    items := [.cons "id" (.str "a") (.cons "f" (.decimal ⟨10, 0⟩) .nil)] }

/-- The native item `{id: "b", field: 10.0}`. -/
def exampleItemB : ValueMap := .cons "id" (.str "b") (.cons "field" (.float ⟨100, 1⟩) .nil)

/-- An empty table with the `"id"` key schema. -/
def exampleTableEmpty : Table := { keys := exampleKeys, name := "T", items := [] }

/-- The table after storing the encoded `{id: "b", field: 10.0}`. -/
def exampleTableB : Table :=
  { keys := exampleKeys, name := "T",
    items := [.cons "id" (.str "b") (.cons "field" (.decimal ⟨10, 0⟩) .nil)] }

/-- A plan exercising all six operation categories at once. -/
def exampleFullArgs : UpdateArgs :=
  { put_fields := [(.str "p", .int 1)],
    increment_fields := [(.str "i", .int 2)],
    extend_sets := [(.str "s", .set (.cons (.str "x") .nil))],
    remove_from_sets := [(.str "r", .str "y")],
    extend_arrays := [(.str "e", .cons (.int 3) .nil)],
    delete_fields := [.str "d", .str "d"] }

/-- The request `exampleFullArgs` compiles to. -/
def exampleFullRequest : UpdateRequest :=
  { expression := "SET #f0 = :set_value0, #f1 = list_append(if_not_exists(#f1, :empty_list), :extend_value0) ADD #f2 :add_value0, #f3 :insert_value0 DELETE #f4 :pop_value0 REMOVE #f5",
    attributeValues := [(":set_value0", .decimal ⟨1, 0⟩),
      (":extend_value0", .list (.cons (.decimal ⟨3, 0⟩) .nil)),
      (":empty_list", .list .nil),
      (":add_value0", .decimal ⟨2, 0⟩),
      (":insert_value0", .set (.cons (.str "x") .nil)),
      (":pop_value0", .set (.cons (.str "y") .nil))],
    attributeNames := [("#f0", "p"), ("#f1", "e"), ("#f2", "i"), ("#f3", "s"), ("#f4", "r"),
      ("#f5", "d"), ("#f6", "id")],
    condition := some "attribute_exists(#f6)" }

theorem except_ok_bind {ε α β : Type} (a : α) (f : α → Except ε β) :
    (Except.ok a >>= f : Except ε β) = f a := rfl

theorem mem_dedupAux {α : Type} [DecidableEq α] (l : List α) :
    ∀ (seen : List α) (a : α), a ∈ dedupAux seen l ↔ (a ∈ l ∧ a ∉ seen) := by
  induction l with
  | nil => simp [dedupAux]
  | cons x xs ih =>
    intro seen a
    simp only [dedupAux]
    by_cases hx : x ∈ seen
    · rw [if_pos hx, ih, List.mem_cons]
      constructor
      · rintro ⟨h1, h2⟩
        exact ⟨Or.inr h1, h2⟩
      · rintro ⟨h1 | h1, h2⟩
        · subst h1
          exact absurd hx h2
        · exact ⟨h1, h2⟩
    · rw [if_neg hx, List.mem_cons, ih, List.mem_cons, List.mem_cons]
      constructor
      · rintro (rfl | ⟨h1, h2⟩)
        · exact ⟨Or.inl rfl, hx⟩
        · push_neg at h2
          exact ⟨Or.inr h1, h2.2⟩
      · rintro ⟨h1 | h1, h2⟩
        · exact Or.inl h1
        · by_cases hax : a = x
          · exact Or.inl hax
          · refine Or.inr ⟨h1, ?_⟩
            push_neg
            exact ⟨hax, h2⟩

theorem nodup_dedupAux {α : Type} [DecidableEq α] (l : List α) :
    ∀ seen : List α, (dedupAux seen l).Nodup := by
  induction l with
  | nil => simp [dedupAux]
  | cons x xs ih =>
    intro seen
    simp only [dedupAux]
    by_cases hx : x ∈ seen
    · simp [hx, ih]
    · simp only [if_neg hx, List.nodup_cons]
      refine ⟨fun hmem => ?_, ih _⟩
      rw [mem_dedupAux] at hmem
      simp at hmem

theorem mem_dedupKF {α : Type} [DecidableEq α] (l : List α) (a : α) :
    a ∈ dedupKF l ↔ a ∈ l := by
  rw [dedupKF, mem_dedupAux]
  simp

theorem nodup_dedupKF {α : Type} [DecidableEq α] (l : List α) : (dedupKF l).Nodup :=
  nodup_dedupAux l []

theorem wrapSet_idem (v : Value) : wrapSet (wrapSet v) = wrapSet v := by
  cases v <;> rfl

theorem list_mapM_map {α β γ : Type} (g : α → β) (f : β → Except DBError γ) (l : List α) :
    (l.map g).mapM f = l.mapM (fun x => f (g x)) := by
  induction l with
  | nil => rfl
  | cons x xs ih => rw [List.map_cons, List.mapM_cons, List.mapM_cons, ih]

theorem list_foldlM_map {α β γ : Type} (g : α → β) (f : γ → β → Except DBError γ)
    (l : List α) : ∀ init : γ,
    (l.map g).foldlM f init = l.foldlM (fun m x => f m (g x)) init := by
  induction l with
  | nil => intro init; rfl
  | cons x xs ih =>
    intro init
    rw [List.map_cons, List.foldlM_cons, List.foldlM_cons]
    cases hf : f init (g x) with
    | error e => rfl
    | ok i => simpa using ih i

/-- C9: a call of `update_item` in which all six operation categories are
empty is rejected with the `EmptyUpdate` error (`DynamoDBException("At least
one update must be made to the item")`) before a request is compiled or any
transport call is made, for any table, key and flag values. -/
theorem empty_update_rejected (tk : TableKeys) (cim : Bool) (t : Table) (koi : ValueMap)
    (ro : Bool) :
    compileUpdateAsync tk {} cim = .error .emptyUpdate
      ∧ update_item t koi {} cim ro = (t, .error .emptyUpdate) :=
  ⟨rfl, rfl⟩

/-- C3: scenario increment-with-default.  Starting from the item `{id: "a"}`
in which the field `counter` is absent, `update_item` with
`increment_fields = {"counter": 5}` succeeds and leaves `counter == 5` — the
compiled `ADD` clause reads the absent attribute as the zero default, so a
missing field becomes the increment amount itself rather than erroring —
and a second call with delta `3` leaves `counter == 8`. -/
theorem increment_with_missing_field_scenario :
    (update_item exampleTableA exampleKeyA
        { increment_fields := [(.str "counter", .int 5)] } false false).2 = .ok none
    ∧ get_item (update_item exampleTableA exampleKeyA
          { increment_fields := [(.str "counter", .int 5)] } false false).1 exampleKeyA
        = .ok (some (.cons "id" (.str "a") (.cons "counter" (.int 5) .nil)))
    ∧ get_item (update_item (update_item exampleTableA exampleKeyA
            { increment_fields := [(.str "counter", .int 5)] } false false).1 exampleKeyA
          { increment_fields := [(.str "counter", .int 3)] } false false).1 exampleKeyA
        = .ok (some (.cons "id" (.str "a") (.cons "counter" (.int 8) .nil))) := by
  refine ⟨by decide, by decide, by decide⟩

/-- C1, counterexample: a plan that references the same field `"field"` in
both `put_fields` and `increment_fields` is NOT rejected — `update_item`
performs no duplicate-path validation, so compilation succeeds (no
`ConflictingFieldOperation`-style error exists in the code) and the conflict
is compiled into one expression referencing the same alias `#f0` in both the
SET and the ADD clause; the transport call is then attempted.  This refutes
the claim that such a call fails before any transport call is made. -/
theorem conflicting_field_not_rejected_before_transport :
    compileUpdateAsync exampleKeys
        { put_fields := [(.str "field", .int 1)], increment_fields := [(.str "field", .int 2)] }
        false
      = .ok { expression := "SET #f0 = :set_value0 ADD #f0 :add_value0",
              attributeValues := [(":set_value0", .decimal ⟨1, 0⟩), (":add_value0", .decimal ⟨2, 0⟩)],
              attributeNames := [("#f0", "field"), ("#f1", "id")],
              condition := some "attribute_exists(#f1)" } := by
  decide

/-- C1, amended: for every field name and every pair of encodable values, a
plan putting and incrementing that same field compiles successfully — no
duplicate-path check runs before the transport call — into a single update
expression that references the field's one alias in both the SET and the ADD
clause, with both values sent as value placeholders. -/
theorem update_put_increment_same_field_compiles (s : String) (v1 v2 w1 w2 : Value)
    (tk : TableKeys)
    (h1 : recursiveConvert v1 true 6 = .ok w1) (h2 : recursiveConvert v2 true 6 = .ok w2) :
    compileUpdateAsync tk { put_fields := [(.str s, v1)], increment_fields := [(.str s, v2)] } true
      = .ok { expression := "SET #f0 = :set_value0 ADD #f0 :add_value0",
              attributeValues := [(":set_value0", w1), (":add_value0", w2)],
              attributeNames := [("#f0", s)],
              condition := none } := by
  have hsz : UpdateArgs.size { put_fields := [(.str s, v1)], increment_fields := [(.str s, v2)] }
      = 2 := by
    simp [UpdateArgs.size, UpdateArgs.deleteSet, dedupKF, dedupAux]
  have hds : UpdateArgs.deleteSet { put_fields := [(.str s, v1)], increment_fields := [(.str s, v2)] }
      = [] := rfl
  have ham : attributesMapping [[Step.name s], [Step.name s]] = [(s, "#f0")] := by
    simp [attributesMapping, uniqueAttributes, stepNames, dedupKF, dedupAux, List.flatten,
      List.enum, List.enumFrom]
    decide
  have hr : renderPath [(s, "#f0")] [Step.name s] = "#f0" := by
    simp only [renderPath, lookupToken, List.lookup, beq_self_eq_true, List.map]
    decide
  rw [compileUpdateAsync, if_neg (by rw [hsz]; decide)]
  simp only [updateAllPaths, hds, fieldPathToExpression, PathLike.norm, List.map,
    List.append_nil, List.nil_append, List.cons_append, ham, hr]
  simp only [List.mapM_cons, List.mapM_nil, h1, h2, except_ok_bind, List.take, List.drop,
    List.length, pure_bind, List.enum, List.enumFrom, List.map, List.length_cons, List.length_nil]
  simp only [joinClauses, List.filter, List.map, List.isEmpty, Bool.not_false, Bool.not_true,
    List.enum, List.enumFrom, if_true, List.cons_append, List.nil_append, List.append_nil]
  simp only [pure, Except.pure, Except.ok.injEq, UpdateRequest.mk.injEq, Prod.mk.injEq]
  refine ⟨by decide, ?_, ?_, ?_⟩ <;>
    simp [stepNames, dedupAux, List.filterMap, Prod.mk.injEq] <;> decide

/-- Witness for the amended C1 theorem at the concrete field `"f"` with
values `1` and `2`. -/
theorem update_put_increment_same_field_compiles_witness :
    recursiveConvert (.int 1) true 6 = .ok (.decimal ⟨1, 0⟩)
    ∧ compileUpdateAsync exampleKeys
        { put_fields := [(.str "f", .int 1)], increment_fields := [(.str "f", .int 2)] } true
      = .ok { expression := "SET #f0 = :set_value0 ADD #f0 :add_value0",
              attributeValues := [(":set_value0", .decimal ⟨1, 0⟩), (":add_value0", .decimal ⟨2, 0⟩)],
              attributeNames := [("#f0", "f")],
              condition := none } :=
  ⟨by decide,
    update_put_increment_same_field_compiles "f" (.int 1) (.int 2) (.decimal ⟨1, 0⟩)
      (.decimal ⟨2, 0⟩) exampleKeys (by decide) (by decide)⟩

/-- C6, counterexample: an empty set that is a list element — not the value
of a map entry — is NOT dropped by the encoder: `[set()]` encodes to a list
containing an empty wire collection, refuting "every nested occurrence of an
empty set is encoded as field absent". -/
theorem empty_set_in_list_not_dropped :
    recursiveConvert (.list (.cons (.set .nil) .nil)) true 6
      = .ok (.list (.cons (.set .nil) .nil))
    ∧ containsEmptySet (.list (.cons (.set .nil) .nil)) = true := by
  refine ⟨by decide, by decide⟩

/-- C8, counterexample: in the synchronous `update_item`
(`aws_tools/dynamoDB.py`, line 517) the compiled append is
`list_append(#f0, :extend_value0)` — NOT seeded with an empty-list default —
so the target list must pre-exist there; only the asynchronous compiler
emits `list_append(if_not_exists(#f0, :empty_list), :extend_value0)`. -/
theorem sync_append_not_seeded :
    (compileUpdateSync exampleKeys
        { extend_arrays := [(.str "arr", .cons (.int 1) .nil)] } true).map
        (fun r => r.expression)
      = .ok "SET #f0 = list_append(#f0, :extend_value0)"
    ∧ (compileUpdateAsync exampleKeys
        { extend_arrays := [(.str "arr", .cons (.int 1) .nil)] } true).map
        (fun r => r.expression)
      = .ok "SET #f0 = list_append(if_not_exists(#f0, :empty_list), :extend_value0)"
    ∧ strContainsSub "SET #f0 = list_append(#f0, :extend_value0)" "if_not_exists" = false := by
  refine ⟨by decide, by decide, by decide⟩

/-- C10: in `update_item`'s `remove_from_sets` category every value that is
not a set is wrapped into a singleton set
(`value if isinstance(value, set) else {value}`) before compilation:
replacing every value by its wrapped set leaves both the compiled request
and the store's application of the plan identical, so passing a scalar and
passing the corresponding one-element set produce the same request and
remove the same members. -/
theorem remove_from_sets_scalar_wrapped (tk : TableKeys) (cim : Bool) (base : ValueMap)
    (put inc ext rem : List (PathLike × Value)) (arr : List (PathLike × ValueList))
    (del : List PathLike) :
    compileUpdateAsync tk
      { put_fields := put, increment_fields := inc, extend_sets := ext,
        remove_from_sets := rem.map fun pv => (pv.1, wrapSet pv.2),
        extend_arrays := arr, delete_fields := del } cim
    = compileUpdateAsync tk
      { put_fields := put, increment_fields := inc, extend_sets := ext,
        remove_from_sets := rem, extend_arrays := arr, delete_fields := del } cim
    ∧ applyUpdatePlan base
      { put_fields := put, increment_fields := inc, extend_sets := ext,
        remove_from_sets := rem.map fun pv => (pv.1, wrapSet pv.2),
        extend_arrays := arr, delete_fields := del }
    = applyUpdatePlan base
      { put_fields := put, increment_fields := inc, extend_sets := ext,
        remove_from_sets := rem, extend_arrays := arr, delete_fields := del } := by
  have hfst : (rem.map fun pv => (pv.1, wrapSet pv.2)).map Prod.fst = rem.map Prod.fst := by
    simp [List.map_map, Function.comp]
  have hvals : ((rem.map fun pv => (pv.1, wrapSet pv.2)).map Prod.snd).mapM
        (fun v => recursiveConvert (wrapSet v) true 6)
      = (rem.map Prod.snd).mapM (fun v => recursiveConvert (wrapSet v) true 6) := by
    rw [List.map_map, list_mapM_map, list_mapM_map]
    simp [Function.comp, wrapSet_idem]
  constructor
  · simp only [compileUpdateAsync, UpdateArgs.size, UpdateArgs.deleteSet, updateAllPaths,
      List.length_map, hfst, hvals]
  · simp only [applyUpdatePlan, list_foldlM_map, wrapSet_idem, UpdateArgs.deleteSet]

/-- C7: within one call of `_field_path_to_expression`, rendering is a
function of the normalised path and the one shared alias mapping, so two
structurally equal field paths render to the same expression string; and the
name column of the alias mapping is duplicate-free and holds exactly the
attribute names occurring in the paths — each distinct attribute name is
assigned exactly one placeholder token, deduplicated by underlying name, not
by call site. -/
theorem field_path_aliases_deduplicated (args : List PathLike) (i j : Nat) (fi fj : PathLike)
    (hi : args[i]? = some fi) (hj : args[j]? = some fj) (heq : fi.norm = fj.norm) :
    (fieldPathToExpression args).1[i]? = (fieldPathToExpression args).1[j]?
    ∧ ((attributesMapping (args.map PathLike.norm)).map Prod.fst).Nodup
    ∧ ∀ s, s ∈ (attributesMapping (args.map PathLike.norm)).map Prod.fst
        ↔ s ∈ ((args.map PathLike.norm).map stepNames).flatten := by
  have hcol : (attributesMapping (args.map PathLike.norm)).map Prod.fst
      = uniqueAttributes (args.map PathLike.norm) := by
    rw [attributesMapping, List.map_map]
    have hfn : (Prod.fst ∘ fun p : Nat × String => (p.2, "#f" ++ toString p.1)) = Prod.snd := rfl
    rw [hfn, List.enum_map_snd]
  refine ⟨?_, ?_, ?_⟩
  · simp only [fieldPathToExpression]
    rw [List.getElem?_map, List.getElem?_map, List.getElem?_map, List.getElem?_map, hi, hj]
    simp [heq]
  · rw [hcol]
    exact nodup_dedupKF _
  · intro s
    rw [hcol, uniqueAttributes, mem_dedupKF]

/-- Witness for C7 at the call-site pair `"a"` (bare string) and `("a",)`
(explicit one-step path): both render to the same expression. -/
theorem field_path_aliases_deduplicated_witness :
    (fieldPathToExpression [.str "a", .path [.name "a"]]).1[0]?
      = (fieldPathToExpression [.str "a", .path [.name "a"]]).1[1]?
    ∧ ((attributesMapping ([PathLike.str "a", .path [.name "a"]].map PathLike.norm)).map
        Prod.fst).Nodup
    ∧ ("a" ∈ (attributesMapping ([PathLike.str "a", .path [.name "a"]].map PathLike.norm)).map
        Prod.fst
      ↔ "a" ∈ (([PathLike.str "a", .path [.name "a"]].map PathLike.norm).map
        stepNames).flatten) := by
  have h := field_path_aliases_deduplicated [.str "a", .path [.name "a"]] 0 1
    (.str "a") (.path [.name "a"]) (by decide) (by decide) (by decide)
  exact ⟨h.1, h.2.1, h.2.2 "a"⟩

/-- C4: `put_item` with `overwrite=false` called twice on the same key.  The
first call succeeds (appending the encoded item) and returns no old value —
with or without `return_object`, since nothing was overwritten.  The second
call fails with the "already exists" `DynamoDBException` — the client's
mapping of the store's `ConditionalCheckFailedException`, a constructor
distinct from the passed-through transport `clientError` — and leaves the
stored items unchanged. -/
theorem put_twice_same_key (t : Table) (item enc : ValueMap) (ro ro2 : Bool)
    (hassert : (t.keys.values.all fun k => (item.find? k).isSome) = true)
    (henc : recursiveConvertMap item true = .ok enc)
    (hnew : findByKey t enc = none) :
    put_item t item false ro = ({ t with items := t.items ++ [enc] }, .ok none)
    ∧ put_item { t with items := t.items ++ [enc] } item false ro2
      = ({ t with items := t.items ++ [enc] },
         .error (.itemAlreadyExists ((extractKey t.keys item).toOption.getD .nil) t.name)) := by
  have hfind : findByKey { t with items := t.items ++ [enc] } enc = some enc := by
    simp only [findByKey] at hnew ⊢
    rw [List.find?_append, hnew]
    simp [List.find?_cons]
  constructor
  · simp only [put_item]
    rw [if_neg (not_not_intro hassert), henc]
    simp only [hnew, replaceOrAdd, ite_self]
    simp [hnew]
  · simp only [put_item]
    rw [if_neg (not_not_intro hassert), henc]
    simp only [hfind]

/-- Witness for C4: creating `{id: "b", field: 10.0}` twice in an empty
table; the second call reports the item as already existing and the stored
state is unchanged. -/
theorem put_twice_same_key_witness :
    put_item exampleTableEmpty exampleItemB false false = (exampleTableB, .ok none)
    ∧ put_item exampleTableB exampleItemB false true
      = (exampleTableB,
         .error (.itemAlreadyExists (.cons "id" (.str "b") .nil) "T")) := by
  have h := put_twice_same_key exampleTableEmpty exampleItemB
    (.cons "id" (.str "b") (.cons "field" (.decimal ⟨10, 0⟩) .nil)) false true
    (by decide) (by decide) (by decide)
  exact ⟨h.1, h.2⟩

theorem except_error_bind {ε α β : Type} (e : ε) (f : α → Except ε β) :
    (Except.error e >>= f : Except ε β) = .error e := rfl

theorem collectExistingFields_spec (item : ValueMap) :
    ∀ (fields : List PathLike) (pairs : List (PathLike × Value)),
    collectExistingFields item fields = .ok pairs →
    pairs.map Prod.fst
        = fields.filter (fun f => decide (fieldExists (.map item) f.norm = .ok true))
    ∧ ∀ fp ∈ pairs, extractItemFieldValue (.map item) fp.1.norm = .ok fp.2 := by
  intro fields
  induction fields with
  | nil =>
    intro pairs h
    simp only [collectExistingFields] at h
    cases h
    simp
  | cons f rest ih =>
    intro pairs h
    simp only [collectExistingFields] at h
    cases hb : fieldExists (.map item) f.norm with
    | error e => rw [hb, except_error_bind] at h; exact Except.noConfusion h
    | ok b =>
      rw [hb] at h
      cases b with
      | true =>
        simp only [except_ok_bind, if_true] at h
        cases hv : extractItemFieldValue (.map item) f.norm with
        | error e => rw [hv, except_error_bind] at h; exact Except.noConfusion h
        | ok v =>
          rw [hv] at h
          cases hrec : collectExistingFields item rest with
          | error e =>
            rw [hrec, except_ok_bind, except_error_bind] at h
            exact Except.noConfusion h
          | ok ps =>
            rw [hrec] at h
            simp only [except_ok_bind] at h
            cases h
            obtain ⟨ih1, ih2⟩ := ih ps hrec
            refine ⟨?_, ?_⟩
            · simp [List.filter, hb, ih1]
            · intro fp hfp
              rcases List.mem_cons.mp hfp with rfl | hmem
              · exact hv
              · exact ih2 fp hmem
      | false =>
        simp only [except_ok_bind, if_false] at h
        obtain ⟨ih1, ih2⟩ := ih pairs h
        refine ⟨?_, ih2⟩
        simp [List.filter, hb, ih1]

/-- C5, amended (the asynchronous `get_item_fields_async` satisfies the
claim): when the item does not exist the call returns `None`; when it exists
the returned mapping holds exactly the requested fields that exist on the
item — the keys of the collected pairs are the `_field_exists`-filtered
request list, each paired with its extracted value — and querying a
top-level field never errors, an absent field being omitted instead.  (The
synchronous `get_item_fields` violates the claim: see the counterexample.) -/
theorem get_item_fields_async_omits_absent (t : Table) (koi : ValueMap) (fields : List PathLike)
    (key encKey : ValueMap)
    (hk : extractKey t.keys koi = .ok key)
    (he : recursiveConvertMap key true = .ok encKey) :
    (findByKey t encKey = none → get_item_fields_async t koi fields = .ok none)
    ∧ (∀ item pairs out, findByKey t encKey = some item →
        collectExistingFields item fields = .ok pairs →
        decodeFieldPairs pairs = .ok out →
        get_item_fields_async t koi fields = .ok (some out)
        ∧ pairs.map Prod.fst
            = fields.filter (fun f => decide (fieldExists (.map item) f.norm = .ok true))
        ∧ ∀ fp ∈ pairs, extractItemFieldValue (.map item) fp.1.norm = .ok fp.2)
    ∧ (∀ item : ValueMap, ∀ s, ∃ b, fieldExists (.map item) (PathLike.str s).norm = .ok b) := by
  refine ⟨?_, ?_, ?_⟩
  · intro hnone
    simp only [get_item_fields_async]
    rw [hk, except_ok_bind, he, except_ok_bind, hnone]
  · intro item pairs out hfound hcol hdec
    refine ⟨?_, (collectExistingFields_spec item fields pairs hcol).1,
      (collectExistingFields_spec item fields pairs hcol).2⟩
    simp only [get_item_fields_async]
    rw [hk, except_ok_bind, he, except_ok_bind, hfound]
    simp only [hcol, except_ok_bind, hdec]
    rfl
  · intro item s
    simp only [PathLike.norm, fieldExists]
    cases hf : item.find? s with
    | none => exact ⟨false, rfl⟩
    | some v => exact ⟨true, rfl⟩

/-- C5, counterexample: on the item `{id: "a", f: 10}`, requesting the
absent field `"missing"` makes the synchronous `get_item_fields`
(`aws_tools/dynamoDB.py`, line 573: no `_field_exists` filter) raise a
`KeyError`, while `get_item_fields_async` omits the absent field and
returns the empty mapping.  This refutes the claim for the synchronous
function the claim also cites. -/
theorem sync_get_item_fields_raises_on_absent_field :
    get_item_fields_sync exampleTableF exampleKeyA [.str "missing"] = .error .keyError
    ∧ get_item_fields_async exampleTableF exampleKeyA [.str "missing"] = .ok (some []) := by
  refine ⟨by decide, by decide⟩

/-- Witness for the amended C5 theorem: requesting `{f, missing}` of the
item `{id: "a", f: 10}` returns exactly `{f: 10}`; requesting a field of a
missing item returns `None`. -/
theorem get_item_fields_async_omits_absent_witness :
    get_item_fields_async exampleTableF exampleKeyA [.str "f", .str "missing"]
      = .ok (some [(.str "f", .int 10)])
    ∧ get_item_fields_async exampleTableF (.cons "id" (.str "zz") .nil) [.str "f"] = .ok none := by
  have h := get_item_fields_async_omits_absent exampleTableF exampleKeyA
    [.str "f", .str "missing"] exampleKeyA exampleKeyA (by decide) (by decide)
  have h2 := get_item_fields_async_omits_absent exampleTableF (.cons "id" (.str "zz") .nil)
    [.str "f"] (.cons "id" (.str "zz") .nil) (.cons "id" (.str "zz") .nil) (by decide) (by decide)
  exact ⟨(h.2.1 (.cons "id" (.str "a") (.cons "f" (.decimal ⟨10, 0⟩) .nil))
      [(.str "f", .decimal ⟨10, 0⟩)] [(.str "f", .int 10)]
      (by decide) (by decide) (by decide)).1,
    h2.1 (by decide)⟩


theorem convList_length : ∀ (xs ys : ValueList),
    recursiveConvertList xs true = .ok ys → ys.length = xs.length
  | .nil, ys, h => by cases h; rfl
  | .cons x xs, ys, h => by
    simp only [recursiveConvertList] at h
    cases hc : recursiveConvert x true 6 with
    | error e => rw [hc, except_error_bind] at h; exact Except.noConfusion h
    | ok w =>
      rw [hc] at h
      cases hr : recursiveConvertList xs true with
      | error e =>
        rw [hr, except_ok_bind, except_error_bind] at h
        exact Except.noConfusion h
      | ok ws =>
        rw [hr] at h
        simp only [except_ok_bind] at h
        cases h
        simp only [ValueList.length, convList_length xs ws hr]

theorem dedup_cons_ne_nil (x : Value) (xs : ValueList) :
    (ValueList.cons x xs).dedup ≠ .nil := by
  simp [ValueList.dedup, ValueList.dedupAux]

theorem encode_ne_emptySet : ∀ (v w : Value), v ≠ .set .nil →
    recursiveConvert v true 6 = .ok w → w ≠ .set .nil := by
  intro v w hv h
  cases v with
  | list xs =>
    cases hc : recursiveConvertList xs true with
    | error e => rw [recursiveConvert, hc] at h; exact Except.noConfusion h
    | ok ys => rw [recursiveConvert, hc] at h; cases h; simp
  | set xs =>
    cases hc : recursiveConvertList xs true with
    | error e => rw [recursiveConvert, hc] at h; exact Except.noConfusion h
    | ok ys =>
      rw [recursiveConvert, hc] at h
      cases h
      cases xs with
      | nil => exact absurd rfl hv
      | cons y ys' =>
        cases ys with
        | nil =>
          have hl := convList_length (.cons y ys') .nil hc
          simp only [ValueList.length] at hl
          omega
        | cons z zs =>
          intro hcon
          exact dedup_cons_ne_nil z zs (Value.set.inj hcon)
  | map kvs =>
    cases hc : recursiveConvertMap kvs true with
    | error e => rw [recursiveConvert, hc] at h; exact Except.noConfusion h
    | ok ws => rw [recursiveConvert, hc] at h; cases h; simp
  | null => cases h; simp
  | str s => cases h; simp
  | bool b => simp only [recursiveConvert, if_true] at h; cases h; simp
  | int n => simp only [recursiveConvert, if_true] at h; cases h; simp
  | float d =>
    simp only [recursiveConvert, if_true] at h
    cases hc : encodeFloat d 6 with
    | error e => rw [hc] at h; exact Except.noConfusion h
    | ok D =>
      rw [hc] at h
      simp only [Except.map] at h
      cases h
      simp
  | decimal d => simp only [recursiveConvert] at h; exact Except.noConfusion h

theorem dedupAux_noEmptySetMapEntries : ∀ (ys : ValueList) (seen : List Value),
    noEmptySetMapEntriesList ys = true →
    noEmptySetMapEntriesList (ValueList.dedupAux seen ys) = true
  | .nil, seen, h => h
  | .cons x xs, seen, h => by
    simp only [noEmptySetMapEntriesList, Bool.and_eq_true] at h
    simp only [ValueList.dedupAux]
    by_cases hm : x ∈ seen
    · rw [if_pos hm]
      exact dedupAux_noEmptySetMapEntries xs seen h.2
    · rw [if_neg hm]
      simp only [noEmptySetMapEntriesList, Bool.and_eq_true]
      exact ⟨h.1, dedupAux_noEmptySetMapEntries xs (x :: seen) h.2⟩

mutual
theorem encNoEmptyAux : ∀ (v w : Value),
    recursiveConvert v true 6 = .ok w → noEmptySetMapEntries w = true
  | .list xs, w, h => by
    cases hc : recursiveConvertList xs true with
    | error e => rw [recursiveConvert, hc] at h; exact Except.noConfusion h
    | ok ys =>
      rw [recursiveConvert, hc] at h
      cases h
      exact encNoEmptyAuxList xs ys hc
  | .set xs, w, h => by
    cases hc : recursiveConvertList xs true with
    | error e => rw [recursiveConvert, hc] at h; exact Except.noConfusion h
    | ok ys =>
      rw [recursiveConvert, hc] at h
      cases h
      exact dedupAux_noEmptySetMapEntries ys [] (encNoEmptyAuxList xs ys hc)
  | .map kvs, w, h => by
    cases hc : recursiveConvertMap kvs true with
    | error e => rw [recursiveConvert, hc] at h; exact Except.noConfusion h
    | ok ws =>
      rw [recursiveConvert, hc] at h
      cases h
      exact encNoEmptyAuxMap kvs ws hc
  | .null, w, h => by cases h; rfl
  | .str s, w, h => by cases h; rfl
  | .bool b, w, h => by simp only [recursiveConvert, if_true] at h; cases h; rfl
  | .int n, w, h => by simp only [recursiveConvert, if_true] at h; cases h; rfl
  | .float d, w, h => by
    simp only [recursiveConvert, if_true] at h
    cases hc : encodeFloat d 6 with
    | error e => rw [hc] at h; exact Except.noConfusion h
    | ok D =>
      rw [hc] at h
      simp only [Except.map] at h
      cases h
      rfl
  | .decimal d, w, h => by exact Except.noConfusion h

theorem encNoEmptyAuxList : ∀ (xs ws : ValueList),
    recursiveConvertList xs true = .ok ws → noEmptySetMapEntriesList ws = true
  | .nil, ws, h => by cases h; rfl
  | .cons x xs, ws, h => by
    simp only [recursiveConvertList] at h
    cases hc : recursiveConvert x true 6 with
    | error e => rw [hc, except_error_bind] at h; exact Except.noConfusion h
    | ok w =>
      rw [hc] at h
      cases hr : recursiveConvertList xs true with
      | error e =>
        rw [hr, except_ok_bind, except_error_bind] at h
        exact Except.noConfusion h
      | ok rest =>
        rw [hr] at h
        simp only [except_ok_bind] at h
        cases h
        simp only [noEmptySetMapEntriesList, Bool.and_eq_true]
        exact ⟨encNoEmptyAux x w hc, encNoEmptyAuxList xs rest hr⟩

theorem encNoEmptyAuxMap : ∀ (kvs ws : ValueMap),
    recursiveConvertMap kvs true = .ok ws → noEmptySetMapEntriesMap ws = true
  | .nil, ws, h => by cases h; rfl
  | .cons k v kvs, ws, h => by
    simp only [recursiveConvertMap] at h
    by_cases hv : v = .set .nil
    · rw [if_pos hv] at h
      exact encNoEmptyAuxMap kvs ws h
    · rw [if_neg hv] at h
      cases hc : recursiveConvert v true 6 with
      | error e => rw [hc, except_error_bind] at h; exact Except.noConfusion h
      | ok w =>
        rw [hc] at h
        cases hr : recursiveConvertMap kvs true with
        | error e =>
          rw [hr, except_ok_bind, except_error_bind] at h
          exact Except.noConfusion h
        | ok rest =>
          rw [hr] at h
          simp only [except_ok_bind] at h
          cases h
          simp only [noEmptySetMapEntriesMap, Bool.and_eq_true]
          refine ⟨⟨?_, encNoEmptyAux v w hc⟩, encNoEmptyAuxMap kvs rest hr⟩
          simp [encode_ne_emptySet v w hv hc]
end

/-- C6, amended: the encoder drops exactly the map entries whose value is an
empty set, at every map depth — a dict entry holding `set()` is omitted from
the encoded output (second conjunct, the dict branch's `if v != set()`), and
consequently no map entry of any encoder output is an empty set (first
conjunct) — while empty sets in other positions (list elements, the top
level) are encoded as empty wire collections, per the counterexample. -/
theorem encoder_drops_empty_set_map_entries_only (v w : Value) (k : String) (kvs : ValueMap)
    (toDec : Bool) (h : recursiveConvert v true 6 = .ok w) :
    noEmptySetMapEntries w = true
    ∧ recursiveConvertMap (.cons k (.set .nil) kvs) toDec = recursiveConvertMap kvs toDec :=
  ⟨encNoEmptyAux v w h, rfl⟩

/-- Witness for the amended C6 theorem: `{a: set(), b: 3}` encodes to
`{b: 3}`, whose map entries contain no empty set, and a dropped entry
leaves exactly the remaining entries. -/
theorem encoder_drops_empty_set_map_entries_only_witness :
    recursiveConvert (.map (.cons "a" (.set .nil) (.cons "b" (.int 3) .nil))) true 6
      = .ok (.map (.cons "b" (.decimal ⟨3, 0⟩) .nil))
    ∧ noEmptySetMapEntries (.map (.cons "b" (.decimal ⟨3, 0⟩) .nil)) = true
    ∧ recursiveConvertMap (.cons "x" (.set .nil) .nil) false = recursiveConvertMap .nil false := by
  have h := encoder_drops_empty_set_map_entries_only
    (.map (.cons "a" (.set .nil) (.cons "b" (.int 3) .nil)))
    (.map (.cons "b" (.decimal ⟨3, 0⟩) .nil)) "x" .nil false (by decide)
  exact ⟨by decide, h.1, h.2⟩


theorem take_map_length {α β : Type} (f : α → β) (l : List α) (r : List β) :
    (l.map f ++ r).take l.length = l.map f := by
  rw [← List.length_map l f]
  exact List.take_left _ _

theorem drop_map_length {α β : Type} (f : α → β) (l : List α) (r : List β) :
    (l.map f ++ r).drop l.length = r := by
  rw [← List.length_map l f]
  exact List.drop_left _ _

/-- C8, amended: for every plan the asynchronous compiler accepts, the
update expression equals the specification-side assembly of section 4.3:
the four clause groups SET (puts, then appends seeded with
`if_not_exists(path, :empty_list)`), ADD, DELETE and REMOVE in that order,
each group emitted only if non-empty, comma-joined within the clause and
space-joined across clauses with the clause keyword, each category
rendering its own paths against the one shared alias table.  (The
synchronous compiler's append template lacks the empty-list seeding: see
the counterexample.) -/
theorem compile_expression_matches_spec (tk : TableKeys) (a : UpdateArgs) (cim : Bool)
    (r : UpdateRequest) (h : compileUpdateAsync tk a cim = .ok r) :
    r.expression = specUpdateExpression tk a cim := by
  have hexprs : (fieldPathToExpression (updateAllPaths tk a cim)).1
      = (a.put_fields.map Prod.fst).map
          (fun f => renderPath (attributesMapping ((updateAllPaths tk a cim).map PathLike.norm)) f.norm)
        ++ ((a.extend_arrays.map Prod.fst).map
          (fun f => renderPath (attributesMapping ((updateAllPaths tk a cim).map PathLike.norm)) f.norm)
        ++ ((a.increment_fields.map Prod.fst).map
          (fun f => renderPath (attributesMapping ((updateAllPaths tk a cim).map PathLike.norm)) f.norm)
        ++ ((a.extend_sets.map Prod.fst).map
          (fun f => renderPath (attributesMapping ((updateAllPaths tk a cim).map PathLike.norm)) f.norm)
        ++ ((a.remove_from_sets.map Prod.fst).map
          (fun f => renderPath (attributesMapping ((updateAllPaths tk a cim).map PathLike.norm)) f.norm)
        ++ (a.deleteSet.map
          (fun f => renderPath (attributesMapping ((updateAllPaths tk a cim).map PathLike.norm)) f.norm)
        ++ ((if cim then [] else tk.values.map PathLike.str).map
          (fun f => renderPath (attributesMapping ((updateAllPaths tk a cim).map PathLike.norm)) f.norm))))))) := by
    conv_lhs => rw [fieldPathToExpression]
    rw [updateAllPaths]
    simp only [List.map_append, List.map_map, List.append_assoc]
    rfl
  have take_len : ∀ {α β : Type} (f : α → β) (l : List α) (r : List β) (n : Nat), n = l.length →
      (l.map f ++ r).take n = l.map f := by
    intro α β f l r n hn
    rw [hn, ← List.length_map l f]
    exact List.take_left _ _
  have drop_len : ∀ {α β : Type} (f : α → β) (l : List α) (r : List β) (n : Nat), n = l.length →
      (l.map f ++ r).drop n = r := by
    intro α β f l r n hn
    rw [hn, ← List.length_map l f]
    exact List.drop_left _ _
  simp only [compileUpdateAsync] at h
  by_cases hsz : a.size = 0
  · rw [if_pos hsz] at h
    exact Except.noConfusion h
  · rw [if_neg hsz] at h
    rw [hexprs] at h
    rw [take_len _ _ _ _ (by simp), drop_len _ _ _ _ (by simp)] at h
    rw [take_len _ _ _ _ (by simp), drop_len _ _ _ _ (by simp)] at h
    rw [take_len _ _ _ _ (by simp), drop_len _ _ _ _ (by simp)] at h
    rw [take_len _ _ _ _ (by simp), drop_len _ _ _ _ (by simp)] at h
    rw [take_len _ _ _ _ (by simp), drop_len _ _ _ _ (by simp)] at h
    rw [take_len _ _ _ _ (by rfl)] at h
    cases h1 : (a.put_fields.map Prod.snd).mapM (fun v => recursiveConvert v true 6) with
    | error e => rw [h1, except_error_bind] at h; exact Except.noConfusion h
    | ok putVals =>
    rw [h1, except_ok_bind] at h
    cases h2 : (a.extend_arrays.map Prod.snd).mapM
        (fun xs => recursiveConvert (.list xs) true 6) with
    | error e => rw [h2, except_error_bind] at h; exact Except.noConfusion h
    | ok arrVals =>
    rw [h2, except_ok_bind] at h
    cases h3 : (a.increment_fields.map Prod.snd).mapM (fun v => recursiveConvert v true 6) with
    | error e => rw [h3, except_error_bind] at h; exact Except.noConfusion h
    | ok incVals =>
    rw [h3, except_ok_bind] at h
    cases h4 : (a.extend_sets.map Prod.snd).mapM (fun v => recursiveConvert v true 6) with
    | error e => rw [h4, except_error_bind] at h; exact Except.noConfusion h
    | ok setVals =>
    rw [h4, except_ok_bind] at h
    cases h5 : (a.remove_from_sets.map Prod.snd).mapM
        (fun v => recursiveConvert (wrapSet v) true 6) with
    | error e => rw [h5, except_error_bind] at h; exact Except.noConfusion h
    | ok remVals =>
    rw [h5, except_ok_bind] at h
    have hr : r = _ := (Except.ok.inj h).symm
    subst hr
    simp only [specUpdateExpression]
    refine congrArg joinClauses ?_
    simp only [List.map_map, List.enum_map, Function.comp]
    rfl

set_option maxRecDepth 8000 in
/-- Witness for the amended C8 theorem at a plan exercising all six
categories. -/
theorem compile_expression_matches_spec_witness :
    compileUpdateAsync exampleKeys exampleFullArgs false = .ok exampleFullRequest
    ∧ exampleFullRequest.expression = specUpdateExpression exampleKeys exampleFullArgs false :=
  ⟨by decide,
    compile_expression_matches_spec exampleKeys exampleFullArgs false exampleFullRequest
      (by decide)⟩

/-- The auxiliary loop of `Dec.norm` stops with either no fractional digits
or a mantissa not divisible by ten. -/
theorem dec_norm_go_reduced : ∀ (e : Nat) (m : Int),
    (Dec.norm.go m e).e = 0 ∨ (Dec.norm.go m e).m % 10 ≠ 0
  | 0, m => Or.inl rfl
  | e + 1, m => by
    rw [Dec.norm.go]
    by_cases h : m % 10 = 0
    · rw [if_pos h]
      exact dec_norm_go_reduced e (m / 10)
    · rw [if_neg h]
      exact Or.inr h

theorem dec_norm_reduced (d : Dec) : (Dec.norm d).e = 0 ∨ (Dec.norm d).m % 10 ≠ 0 :=
  dec_norm_go_reduced d.e d.m

/-- Normalisation fixes an already reduced decimal. -/
theorem dec_norm_of_reduced (d : Dec) (h : d.e = 0 ∨ d.m % 10 ≠ 0) : Dec.norm d = d := by
  cases hd : d.e with
  | zero =>
    obtain ⟨m, e⟩ := d
    simp only at hd
    subst hd
    rfl
  | succ e =>
    obtain ⟨m, e'⟩ := d
    simp only at hd
    subst hd
    rcases h with h | h
    · exact absurd h (by simp)
    · simp only at h
      rw [Dec.norm]
      simp only
      rw [Dec.norm.go, if_neg h]

/-- Normalisation is idempotent. -/
theorem dec_norm_idem (d : Dec) : Dec.norm (Dec.norm d) = Dec.norm d :=
  dec_norm_of_reduced _ (dec_norm_reduced d)

-- Correctness of the float-encoding string pipeline in the fixed-notation
-- regime: below `10 ^ 16` in magnitude the repr of the rounded value is
-- fixed-notation (or short scientific below `10 ^ -4`), the fractional cut
-- `decimal_part[:6]` is the identity, and `Decimal(...)` parses the digits
-- back to the rounded value exactly.

theorem dec_norm_zero : ∀ e : Nat, Dec.norm ⟨0, e⟩ = ⟨0, 0⟩
  | 0 => rfl
  | e + 1 => by
    show Dec.norm.go 0 (e + 1) = ⟨0, 0⟩
    rw [Dec.norm.go, if_pos (by decide)]
    exact dec_norm_zero e

theorem dec_norm_shift (m : Int) (e : Nat) : Dec.norm ⟨m * 10, e + 1⟩ = Dec.norm ⟨m, e⟩ := by
  show Dec.norm.go (m * 10) (e + 1) = Dec.norm.go m e
  rw [Dec.norm.go, if_pos (Int.mul_emod_left m 10), Int.mul_ediv_cancel m (by decide)]

theorem digitsToNat_append : ∀ (l1 l2 : List Char) (acc : Nat),
    digitsToNat acc (l1 ++ l2) = digitsToNat (digitsToNat acc l1) l2
  | [], _, _ => rfl
  | c :: cs, l2, acc => digitsToNat_append cs l2 (acc * 10 + (c.toNat - 48))

theorem digit_char_toNat (r : Nat) (h : r < 10) : (Char.ofNat (48 + r)).toNat = 48 + r := by
  interval_cases r <;> decide

theorem digit_char_isDigit (r : Nat) (h : r < 10) : isDigitChar (Char.ofNat (48 + r)) = true := by
  interval_cases r <;> decide

theorem digit_char_ne_zero (r : Nat) (h : r < 10) (h0 : r ≠ 0) :
    (Char.ofNat (48 + r) == '0') = false := by
  interval_cases r
  · exact absurd rfl h0
  all_goals decide

theorem natDigitsCore_all_digits : ∀ fuel n : Nat,
    ∀ c ∈ natDigitsCore fuel n, isDigitChar c = true
  | 0, _ => by intro c hc; simp [natDigitsCore] at hc
  | _ + 1, 0 => by intro c hc; simp [natDigitsCore] at hc
  | fuel + 1, n + 1 => by
    intro c hc
    rw [natDigitsCore] at hc
    rcases List.mem_append.mp hc with h | h
    · exact natDigitsCore_all_digits fuel ((n + 1) / 10) c h
    · rw [List.mem_singleton.mp h]
      exact digit_char_isDigit _ (Nat.mod_lt _ (by norm_num))

theorem natDigitsCore_val : ∀ fuel n : Nat, n ≤ fuel → ∀ acc : Nat,
    digitsToNat acc (natDigitsCore fuel n)
      = acc * 10 ^ (natDigitsCore fuel n).length + n
  | 0, n, h => by
    have h0 : n = 0 := Nat.le_zero.mp h
    subst h0
    intro acc
    show acc = acc * 10 ^ 0 + 0
    omega
  | fuel + 1, 0, _ => by
    intro acc
    show acc = acc * 10 ^ 0 + 0
    omega
  | fuel + 1, n + 1, h => by
    intro acc
    have hgen : ∀ (A : Nat) (c : Char), digitsToNat A [c] = A * 10 + (c.toNat - 48) :=
      fun A c => rfl
    have hle : (n + 1) / 10 ≤ fuel :=
      Nat.le_of_lt_succ (Nat.lt_of_lt_of_le (Nat.div_lt_self (Nat.succ_pos n) (by norm_num)) h)
    rw [natDigitsCore, digitsToNat_append, natDigitsCore_val fuel ((n + 1) / 10) hle acc,
      hgen, digit_char_toNat _ (Nat.mod_lt _ (by norm_num)), Nat.add_sub_cancel_left]
    simp only [List.length_append, List.length_cons, List.length_nil, Nat.zero_add]
    set L := (natDigitsCore fuel ((n + 1) / 10)).length with hL
    calc (acc * 10 ^ L + (n + 1) / 10) * 10 + (n + 1) % 10
        = acc * (10 ^ L * 10) + ((n + 1) / 10 * 10 + (n + 1) % 10) := by ring
      _ = acc * 10 ^ (L + 1) + (n + 1) := by rw [Nat.div_add_mod', pow_succ]

theorem digitsToNat_natDigits (n : Nat) : digitsToNat 0 (natDigits n) = n := by
  have := natDigitsCore_val n n le_rfl 0
  simpa [natDigits] using this

theorem natDigitsCore_length_le : ∀ fuel n t : Nat, n ≤ fuel → n < 10 ^ t →
    (natDigitsCore fuel n).length ≤ t
  | 0, n, t, h, h2 => by
    have h0 : n = 0 := Nat.le_zero.mp h
    subst h0
    simp [natDigitsCore]
  | fuel + 1, 0, t, _, _ => by simp [natDigitsCore]
  | fuel + 1, n + 1, t, h, h2 => by
    have ht : t ≠ 0 := by
      rintro rfl
      simp at h2
    obtain ⟨t', rfl⟩ := Nat.exists_eq_succ_of_ne_zero ht
    have hle : (n + 1) / 10 ≤ fuel :=
      Nat.le_of_lt_succ (Nat.lt_of_lt_of_le (Nat.div_lt_self (Nat.succ_pos n) (by norm_num)) h)
    have hlt : (n + 1) / 10 < 10 ^ t' := by
      rw [Nat.div_lt_iff_lt_mul (by norm_num)]
      calc n + 1 < 10 ^ (t' + 1) := h2
        _ = 10 ^ t' * 10 := by ring
    rw [natDigitsCore]
    simp only [List.length_append, List.length_cons, List.length_nil]
    have := natDigitsCore_length_le fuel ((n + 1) / 10) t' hle hlt
    omega

theorem natDigits_length_pos (n : Nat) (h : 1 ≤ n) : 1 ≤ (natDigits n).length := by
  obtain ⟨m, rfl⟩ := Nat.exists_eq_succ_of_ne_zero (Nat.one_le_iff_ne_zero.mp h)
  rw [natDigits, natDigitsCore]
  simp

theorem natDigits_strip (n : Nat) (h0 : n % 10 ≠ 0) :
    ((natDigits n).reverse.dropWhile (fun c => c == '0')).reverse = natDigits n := by
  have h1 : n ≠ 0 := by omega
  obtain ⟨m, rfl⟩ := Nat.exists_eq_succ_of_ne_zero h1
  rw [natDigits, natDigitsCore]
  rw [List.reverse_append]
  simp only [List.reverse_cons, List.reverse_nil, List.nil_append, List.cons_append,
    List.dropWhile_cons]
  rw [digit_char_ne_zero _ (Nat.mod_lt _ (by norm_num)) h0]
  simp

theorem isDigitChar_false_dot : isDigitChar '.' = false := by decide

theorem digit_ne_dot (c : Char) (h : isDigitChar c = true) : c ≠ '.' := by
  intro hc
  subst hc
  exact absurd h (by decide)

theorem digit_ne_minus (c : Char) (h : isDigitChar c = true) : c ≠ '-' := by
  intro hc
  subst hc
  exact absurd h (by decide)

theorem digit_ne_plus (c : Char) (h : isDigitChar c = true) : c ≠ '+' := by
  intro hc
  subst hc
  exact absurd h (by decide)

theorem takeWhile_prefix (p : Char → Bool) : ∀ (ds rest : List Char),
    (∀ c ∈ ds, p c = true) → (∀ c cs, rest = c :: cs → p c = false) →
    (ds ++ rest).takeWhile p = ds ∧ (ds ++ rest).dropWhile p = rest
  | [], rest, _, h2 => by
    cases rest with
    | nil => exact ⟨rfl, rfl⟩
    | cons c cs =>
      simp only [List.nil_append, List.takeWhile_cons, List.dropWhile_cons, h2 c cs rfl]
      exact ⟨rfl, rfl⟩
  | d :: ds, rest, h1, h2 => by
    have hd : p d = true := h1 d (List.mem_cons_self d ds)
    have ih := takeWhile_prefix p ds rest (fun c hc => h1 c (List.mem_cons_of_mem d hc)) h2
    simp only [List.cons_append, List.takeWhile_cons, List.dropWhile_cons, hd]
    simp only [ih.1, ih.2]
    exact ⟨rfl, rfl⟩

theorem parseSign_no_sign (l : List Char)
    (h : ∀ c cs, l = c :: cs → (c ≠ '-' ∧ c ≠ '+')) : parseSign l = (false, l) := by
  cases l with
  | nil => rfl
  | cons c cs =>
    obtain ⟨h1, h2⟩ := h c cs rfl
    simp only [parseSign, if_neg h1, if_neg h2]

theorem string_mk_append (a b : List Char) : (⟨a⟩ : String) ++ (⟨b⟩ : String) = ⟨a ++ b⟩ := rfl

theorem take_of_le {α : Type} : ∀ (l : List α) (n : Nat), l.length ≤ n → l.take n = l
  | [], _, _ => by simp
  | x :: xs, n, h => by
    cases n with
    | zero => simp at h
    | succ n =>
      simp only [List.take_succ_cons]
      rw [take_of_le xs n (by simpa using h)]

theorem trunc_noop_dot (pre dp : List Char) (hpre : '.' ∉ pre)
    (hlen : dp.length ≤ 6) :
    truncateDecimalPart ⟨pre ++ '.' :: dp⟩ 6 = ⟨pre ++ '.' :: dp⟩ := by
  have hmem : '.' ∈ pre ++ '.' :: dp := List.mem_append.mpr (Or.inr (List.mem_cons_self _ _))
  have htw := takeWhile_prefix (fun c => c != '.') pre ('.' :: dp)
    (fun c hc => by simp [bne_iff_ne]; exact fun h => hpre (h ▸ hc))
    (fun c cs hcs => by
      rw [List.cons.injEq] at hcs
      rw [hcs.1]
      simp)
  rw [truncateDecimalPart]
  simp only [if_pos hmem]
  rw [htw.1, htw.2]
  simp only [List.drop_succ_cons, List.drop_zero]
  rw [take_of_le dp 6 hlen]
  show (⟨(pre ++ ".".data) ++ dp⟩ : String) = ⟨pre ++ '.' :: dp⟩
  rw [show (".".data : List Char) = ['.'] from rfl, List.append_assoc]
  rfl

theorem trunc_noop_nodot (l : List Char) (h : '.' ∉ l) :
    truncateDecimalPart ⟨l⟩ 6 = ⟨l⟩ := by
  rw [truncateDecimalPart]
  simp only [if_neg (by simpa using h)]

theorem string_data_mk (l : List Char) : (⟨l⟩ : String).data = l := rfl

theorem takeWhile_all (p : Char → Bool) (l : List Char) (h : ∀ c ∈ l, p c = true) :
    l.takeWhile p = l ∧ l.dropWhile p = [] := by
  have := takeWhile_prefix p l [] h (fun c cs hc => by simp at hc)
  simpa using this

theorem parse_fixed (neg : Prop) [Decidable neg] (ip fp : List Char)
    (hip : ∀ c ∈ ip, isDigitChar c = true) (hfp : ∀ c ∈ fp, isDigitChar c = true)
    (hne : ip.length + fp.length ≠ 0) :
    parsePyDecimalCore ((if neg then ['-'] else []) ++ ip ++ '.' :: fp)
      = .ok (Dec.norm ⟨if neg then -(digitsToNat 0 (ip ++ fp) : Int)
          else (digitsToNat 0 (ip ++ fp) : Int), fp.length⟩) := by
  have htw := takeWhile_prefix isDigitChar ip ('.' :: fp) hip
    (fun c cs hcs => by
      rw [List.cons.injEq] at hcs
      rw [← hcs.1]
      decide)
  have hfw := takeWhile_all isDigitChar fp hfp
  by_cases hn : neg
  · simp only [if_pos hn]
    rw [show (['-'] ++ ip ++ '.' :: fp) = '-' :: (ip ++ '.' :: fp) from rfl]
    rw [parsePyDecimalCore]
    simp only [parseSign, eq_self_iff_true, if_true, htw.1, htw.2, hfw.1, hfw.2,
      Bool.false_eq_true, if_false, if_neg hne]
  · simp only [if_neg hn]
    rw [show (([] : List Char) ++ ip ++ '.' :: fp) = ip ++ '.' :: fp from rfl]
    rw [parsePyDecimalCore]
    have hps : parseSign (ip ++ '.' :: fp) = (false, ip ++ '.' :: fp) := by
      apply parseSign_no_sign
      intro c cs hcs
      cases ip with
      | nil =>
        simp only [List.nil_append, List.cons.injEq] at hcs
        rw [← hcs.1]
        exact ⟨by decide, by decide⟩
      | cons d ds =>
        simp only [List.cons_append, List.cons.injEq] at hcs
        have hd : isDigitChar d = true := hip d (List.mem_cons_self d ds)
        rw [← hcs.1]
        exact ⟨digit_ne_minus d hd, digit_ne_plus d hd⟩
    simp only [hps, eq_self_iff_true, if_true, htw.1, htw.2, hfw.1, hfw.2,
      Bool.false_eq_true, if_false, if_neg hne]

theorem isDigitChar_false_e : isDigitChar 'e' = false := by decide

theorem parse_sci_nodot (neg : Prop) [Decidable neg] (ip ed : List Char)
    (hip : ∀ c ∈ ip, isDigitChar c = true) (hed : ∀ c ∈ ed, isDigitChar c = true)
    (hipne : ip.length ≠ 0) (hedne : ed.length ≠ 0) :
    parsePyDecimalCore ((if neg then ['-'] else []) ++ ip ++ 'e' :: '-' :: ed)
      = .ok (Dec.norm ⟨if neg then -(digitsToNat 0 ip : Int) else (digitsToNat 0 ip : Int),
          digitsToNat 0 ed⟩) := by
  have htw := takeWhile_prefix isDigitChar ip ('e' :: '-' :: ed) hip
    (fun c cs hcs => by
      rw [List.cons.injEq] at hcs
      rw [← hcs.1]
      decide)
  have hew := takeWhile_all isDigitChar ed hed
  have hme : ¬ ('e' = '.') := by decide
  have hguard : ¬ (ed.length = 0 ∨ (([] : List Char)) ≠ []) := by
    simp [hedne]
  have hps2 : parseSign ('-' :: ed) = (true, ed) := by
    simp [parseSign]
  have main : ∀ pre : List Char, parseSign (pre ++ ip ++ 'e' :: '-' :: ed)
        = ((if neg then true else false), ip ++ 'e' :: '-' :: ed)
      → parsePyDecimalCore (pre ++ ip ++ 'e' :: '-' :: ed)
        = .ok (Dec.norm ⟨if neg then -(digitsToNat 0 ip : Int) else (digitsToNat 0 ip : Int),
            digitsToNat 0 ed⟩) := by
    intro pre hps
    rw [parsePyDecimalCore]
    simp only [hps]
    by_cases hn : neg
    · simp only [if_pos hn]
      simp only [htw.1, htw.2, if_neg hme, eq_self_iff_true, if_true, true_or,
        List.append_nil, List.length_nil, Nat.add_zero, if_neg hipne, hps2, hew.1, hew.2,
        if_neg hguard, Bool.false_eq_true, if_false]
      rcases Nat.eq_zero_or_pos (digitsToNat 0 ed) with hE | hE
      · simp [hE]
      · have hlt : ¬ ((0 : Int) ≤ -(digitsToNat 0 ed : Int)) := by omega
        simp only [List.length_nil, Int.natCast_zero, sub_zero, if_neg hlt,
          Int.natAbs_neg, Int.natAbs_ofNat]
    · simp only [if_neg hn]
      simp only [htw.1, htw.2, if_neg hme, eq_self_iff_true, if_true, true_or,
        List.append_nil, List.length_nil, Nat.add_zero, if_neg hipne, hps2, hew.1, hew.2,
        if_neg hguard, Bool.false_eq_true, if_false]
      rcases Nat.eq_zero_or_pos (digitsToNat 0 ed) with hE | hE
      · simp [hE]
      · have hlt : ¬ ((0 : Int) ≤ -(digitsToNat 0 ed : Int)) := by omega
        simp only [List.length_nil, Int.natCast_zero, sub_zero, if_neg hlt,
          Int.natAbs_neg, Int.natAbs_ofNat]
  apply main
  by_cases hn : neg
  · simp only [if_pos hn]
    rw [show (['-'] ++ ip ++ 'e' :: '-' :: ed) = '-' :: (ip ++ 'e' :: '-' :: ed) from rfl]
    simp [parseSign, hn]
  · simp only [if_neg hn]
    rw [show (([] : List Char) ++ ip ++ 'e' :: '-' :: ed) = ip ++ 'e' :: '-' :: ed from rfl]
    rw [parseSign_no_sign _ (by
      intro c cs hcs
      cases ip with
      | nil => exact absurd rfl hipne
      | cons d ds =>
        simp only [List.cons_append, List.cons.injEq] at hcs
        have hd : isDigitChar d = true := hip d (List.mem_cons_self d ds)
        rw [← hcs.1]
        exact ⟨digit_ne_minus d hd, digit_ne_plus d hd⟩)]

theorem parse_sci_dot (neg : Prop) [Decidable neg] (ip fp ed : List Char)
    (hip : ∀ c ∈ ip, isDigitChar c = true) (hfp : ∀ c ∈ fp, isDigitChar c = true)
    (hed : ∀ c ∈ ed, isDigitChar c = true)
    (hipne : ip.length ≠ 0) (hedne : ed.length ≠ 0) :
    parsePyDecimalCore ((if neg then ['-'] else []) ++ ip ++ '.' :: (fp ++ 'e' :: '-' :: ed))
      = .ok (Dec.norm ⟨if neg then -(digitsToNat 0 (ip ++ fp) : Int)
          else (digitsToNat 0 (ip ++ fp) : Int), digitsToNat 0 ed + fp.length⟩) := by
  have htw := takeWhile_prefix isDigitChar ip ('.' :: (fp ++ 'e' :: '-' :: ed)) hip
    (fun c cs hcs => by
      rw [List.cons.injEq] at hcs
      rw [← hcs.1]
      decide)
  have hfw := takeWhile_prefix isDigitChar fp ('e' :: '-' :: ed) hfp
    (fun c cs hcs => by
      rw [List.cons.injEq] at hcs
      rw [← hcs.1]
      decide)
  have hew := takeWhile_all isDigitChar ed hed
  have hguard : ¬ (ed.length = 0 ∨ (([] : List Char)) ≠ []) := by
    simp [hedne]
  have hps2 : parseSign ('-' :: ed) = (true, ed) := by
    simp [parseSign]
  have hne2 : ip.length + fp.length ≠ 0 := by omega
  have main : ∀ pre : List Char,
      parseSign (pre ++ ip ++ '.' :: (fp ++ 'e' :: '-' :: ed))
        = ((if neg then true else false), ip ++ '.' :: (fp ++ 'e' :: '-' :: ed))
      → parsePyDecimalCore (pre ++ ip ++ '.' :: (fp ++ 'e' :: '-' :: ed))
        = .ok (Dec.norm ⟨if neg then -(digitsToNat 0 (ip ++ fp) : Int)
            else (digitsToNat 0 (ip ++ fp) : Int), digitsToNat 0 ed + fp.length⟩) := by
    intro pre hps
    rw [parsePyDecimalCore]
    simp only [hps]
    have hred : ∀ m : Int,
        ((if (0 : Int) ≤ -(digitsToNat 0 ed : Int) - (fp.length : Int) then
            Except.ok (Dec.norm ⟨m * (10 : Int)
              ^ (-(digitsToNat 0 ed : Int) - (fp.length : Int)).toNat, 0⟩)
          else Except.ok (Dec.norm
            ⟨m, (-(digitsToNat 0 ed : Int) - (fp.length : Int)).natAbs⟩))
          : Except DBError Dec)
        = Except.ok (Dec.norm ⟨m, digitsToNat 0 ed + fp.length⟩) := by
      intro m
      rcases Nat.eq_zero_or_pos (digitsToNat 0 ed + fp.length) with hEL | hEL
      · rw [Nat.add_eq_zero] at hEL
        simp [hEL.1, hEL.2]
      · have hrw : -(digitsToNat 0 ed : Int) - (fp.length : Int)
            = -(((digitsToNat 0 ed + fp.length : Nat)) : Int) := by
          push_cast
          ring
        have hlt : ¬ ((0 : Int) ≤ -(((digitsToNat 0 ed + fp.length : Nat)) : Int)) := by omega
        simp only [hrw, if_neg hlt, Int.natAbs_neg, Int.natAbs_ofNat]
    by_cases hn : neg
    · simp only [if_pos hn]
      simp only [htw.1, htw.2, eq_self_iff_true, if_true, true_or, hfw.1, hfw.2,
        if_neg hne2, hps2, hew.1, hew.2, if_neg hguard,
        Bool.false_eq_true, if_false, isDigitChar_false_e]
      exact hred _
    · simp only [if_neg hn]
      simp only [htw.1, htw.2, eq_self_iff_true, if_true, true_or, hfw.1, hfw.2,
        if_neg hne2, hps2, hew.1, hew.2, if_neg hguard,
        Bool.false_eq_true, if_false, isDigitChar_false_e]
      exact hred _
  apply main
  by_cases hn : neg
  · simp only [if_pos hn]
    rw [show (['-'] ++ ip ++ '.' :: (fp ++ 'e' :: '-' :: ed))
        = '-' :: (ip ++ '.' :: (fp ++ 'e' :: '-' :: ed)) from rfl]
    simp [parseSign, hn]
  · simp only [if_neg hn]
    rw [show (([] : List Char) ++ ip ++ '.' :: (fp ++ 'e' :: '-' :: ed))
        = ip ++ '.' :: (fp ++ 'e' :: '-' :: ed) from rfl]
    rw [parseSign_no_sign _ (by
      intro c cs hcs
      cases ip with
      | nil => exact absurd rfl hipne
      | cons d ds =>
        simp only [List.cons_append, List.cons.injEq] at hcs
        have hd : isDigitChar d = true := hip d (List.mem_cons_self d ds)
        rw [← hcs.1]
        exact ⟨digit_ne_minus d hd, digit_ne_plus d hd⟩)]

theorem digitsToNat_zeros : ∀ (j : Nat) (l : List Char),
    digitsToNat 0 (List.replicate j '0' ++ l) = digitsToNat 0 l
  | 0, _ => rfl
  | j + 1, l => digitsToNat_zeros j l

theorem digits_not_dot (l : List Char) (h : ∀ c ∈ l, isDigitChar c = true) : '.' ∉ l :=
  fun hm => (digit_ne_dot '.' (h '.' hm)) rfl

theorem sign_not_dot (m : Int) : '.' ∉ (if m < 0 then ['-'] else ([] : List Char)) := by
  split
  · decide
  · decide

theorem mag_eq (m : Int) (x : Nat) (hx : x = m.natAbs) :
    (if m < 0 then -(x : Int) else (x : Int)) = m := by
  split <;> omega

theorem parse_fixed_str (neg : Prop) [Decidable neg] (ip fp : List Char)
    (hip : ∀ c ∈ ip, isDigitChar c = true) (hfp : ∀ c ∈ fp, isDigitChar c = true)
    (hne : ip.length + fp.length ≠ 0) :
    parsePyDecimal ⟨(if neg then ['-'] else []) ++ ip ++ '.' :: fp⟩
      = .ok (Dec.norm ⟨if neg then -(digitsToNat 0 (ip ++ fp) : Int)
          else (digitsToNat 0 (ip ++ fp) : Int), fp.length⟩) :=
  parse_fixed neg ip fp hip hfp hne

theorem parse_sci_nodot_str (neg : Prop) [Decidable neg] (ip ed : List Char)
    (hip : ∀ c ∈ ip, isDigitChar c = true) (hed : ∀ c ∈ ed, isDigitChar c = true)
    (hipne : ip.length ≠ 0) (hedne : ed.length ≠ 0) :
    parsePyDecimal ⟨(if neg then ['-'] else []) ++ ip ++ 'e' :: '-' :: ed⟩
      = .ok (Dec.norm ⟨if neg then -(digitsToNat 0 ip : Int) else (digitsToNat 0 ip : Int),
          digitsToNat 0 ed⟩) :=
  parse_sci_nodot neg ip ed hip hed hipne hedne

theorem parse_sci_dot_str (neg : Prop) [Decidable neg] (ip fp ed : List Char)
    (hip : ∀ c ∈ ip, isDigitChar c = true) (hfp : ∀ c ∈ fp, isDigitChar c = true)
    (hed : ∀ c ∈ ed, isDigitChar c = true)
    (hipne : ip.length ≠ 0) (hedne : ed.length ≠ 0) :
    parsePyDecimal ⟨(if neg then ['-'] else []) ++ ip ++ '.' :: (fp ++ 'e' :: '-' :: ed)⟩
      = .ok (Dec.norm ⟨if neg then -(digitsToNat 0 (ip ++ fp) : Int)
          else (digitsToNat 0 (ip ++ fp) : Int), digitsToNat 0 ed + fp.length⟩) :=
  parse_sci_dot neg ip fp ed hip hfp hed hipne hedne

theorem sci_case_k1 (m : Int) (e : Nat) (ds ed : List Char)
    (hall : ∀ c ∈ ds, isDigitChar c = true) (hed : ∀ c ∈ ed, isDigitChar c = true)
    (hdsne : ds.length ≠ 0) (hedne : ed.length ≠ 0)
    (hval : digitsToNat 0 ds = m.natAbs)
    (hE : digitsToNat 0 ed = e)
    (hn : Dec.norm ⟨m, e⟩ = ⟨m, e⟩) :
    parsePyDecimal (truncateDecimalPart
      ⟨((if m < 0 then ['-'] else []) ++ ds ++ ['e', '-']) ++ ed⟩ 6) = .ok ⟨m, e⟩ := by
  rw [show (((if m < 0 then ['-'] else []) ++ ds ++ ['e', '-']) ++ ed)
      = (if m < 0 then ['-'] else []) ++ ds ++ 'e' :: '-' :: ed from by
    simp [List.append_assoc]]
  rw [trunc_noop_nodot _
    (by
      intro hmem
      rcases List.mem_append.mp hmem with h | h
      · rcases List.mem_append.mp h with h2 | h2
        · exact absurd h2 (sign_not_dot m)
        · exact absurd h2 (digits_not_dot ds hall)
      · rcases List.mem_cons.mp h with h2 | h2
        · exact absurd h2 (by decide)
        · rcases List.mem_cons.mp h2 with h3 | h3
          · exact absurd h3 (by decide)
          · exact absurd h3 (digits_not_dot ed hed))]
  rw [parse_sci_nodot_str (m < 0) ds ed hall hed hdsne hedne]
  rw [hval, mag_eq m m.natAbs rfl, hE, hn]

theorem sci_case_k2 (m : Int) (e : Nat) (ds ed : List Char)
    (hall : ∀ c ∈ ds, isDigitChar c = true) (hed : ∀ c ∈ ed, isDigitChar c = true)
    (hdsne : ds.length ≠ 0) (hds2 : ds.length ≤ 2) (hedne : ed.length ≠ 0)
    (hedlen : ed.length ≤ 3)
    (hval : digitsToNat 0 ds = m.natAbs)
    (hE : digitsToNat 0 ed + (ds.length - 1) = e)
    (hn : Dec.norm ⟨m, e⟩ = ⟨m, e⟩) :
    parsePyDecimal (truncateDecimalPart
      ⟨((if m < 0 then ['-'] else []) ++ (ds.take 1 ++ ['.'] ++ ds.drop 1) ++ ['e', '-']) ++ ed⟩ 6)
      = .ok ⟨m, e⟩ := by
  rw [show (((if m < 0 then ['-'] else []) ++ (ds.take 1 ++ ['.'] ++ ds.drop 1) ++ ['e', '-']) ++ ed)
      = ((if m < 0 then ['-'] else []) ++ ds.take 1)
          ++ '.' :: (ds.drop 1 ++ 'e' :: '-' :: ed) from by
    simp [List.append_assoc]]
  rw [trunc_noop_dot ((if m < 0 then ['-'] else []) ++ ds.take 1) (ds.drop 1 ++ 'e' :: '-' :: ed)
    (by
      intro hmem
      rcases List.mem_append.mp hmem with h | h
      · exact absurd h (sign_not_dot m)
      · exact absurd h (digits_not_dot _ (fun c hc => hall c (List.take_subset _ _ hc))))
    (by
      rw [List.length_append, List.length_drop]
      simp only [List.length_cons]
      omega)]
  rw [parse_sci_dot_str (m < 0) (ds.take 1) (ds.drop 1) ed
    (fun c hc => hall c (List.take_subset _ _ hc))
    (fun c hc => hall c (List.drop_subset _ _ hc))
    hed
    (by rw [List.length_take]; omega)
    hedne]
  have hd : digitsToNat 0 (ds.take 1 ++ ds.drop 1) = m.natAbs := by
    rw [List.take_append_drop]
    exact hval
  rw [hd, mag_eq m m.natAbs rfl, List.length_drop, hE, hn]

theorem reprParse_exact (D : Dec) (hn : Dec.norm D = D) (he : D.e ≤ 6)
    (hrange : D.m.natAbs < 10 ^ (16 + D.e)) :
    parsePyDecimal (truncateDecimalPart (pyFloatRepr D) 6) = .ok D := by
  obtain ⟨m, e⟩ := D
  simp only at he hrange
  by_cases hm0 : m = 0
  · subst hm0
    have h00 : (⟨(0 : Int), e⟩ : Dec) = ⟨0, 0⟩ := hn.symm.trans (dec_norm_zero e)
    rw [h00]
    decide
  · have hall : ∀ c ∈ natDigits m.natAbs, isDigitChar c = true :=
      fun c hc => natDigitsCore_all_digits m.natAbs m.natAbs c hc
    have hval : digitsToNat 0 (natDigits m.natAbs) = m.natAbs := digitsToNat_natDigits m.natAbs
    have ha1 : 1 ≤ m.natAbs := Int.natAbs_pos.mpr hm0
    have hk1 : 1 ≤ (natDigits m.natAbs).length := natDigits_length_pos m.natAbs ha1
    have hkle : (natDigits m.natAbs).length ≤ 16 + e :=
      natDigitsCore_length_le m.natAbs m.natAbs (16 + e) le_rfl hrange
    have h16 : ((natDigits m.natAbs).length : Int) - 1 - (e : Int) < 16 := by omega
    rw [pyFloatRepr]
    simp only [if_neg hm0]
    set ds := natDigits m.natAbs with hds
    set k := ds.length with hk
    by_cases hfix : -4 ≤ (k : Int) - 1 - (e : Int)
    · rw [if_pos ⟨hfix, h16⟩]
      by_cases he0 : e = 0
      · subst he0
        rw [if_pos rfl]
        rw [trunc_noop_dot ((if m < 0 then ['-'] else []) ++ ds) ['0']
          (by
            intro hmem
            rcases List.mem_append.mp hmem with h | h
            · exact absurd h (sign_not_dot m)
            · exact absurd h (digits_not_dot ds hall))
          (by decide)]
        rw [parse_fixed_str (m < 0) ds ['0'] hall
          (by
            intro c hc
            rw [List.mem_singleton.mp hc]
            decide)
          (by omega)]
        have hd0 : digitsToNat 0 (ds ++ ['0']) = m.natAbs * 10 := by
          rw [digitsToNat_append, hval]
          rfl
        rw [hd0]
        have hmag : (if m < 0 then -((m.natAbs * 10 : Nat) : Int) else ((m.natAbs * 10 : Nat) : Int))
            = m * 10 := by
          split <;> omega
        rw [hmag]
        show Except.ok (Dec.norm ⟨m * 10, 0 + 1⟩) = Except.ok ⟨m, 0⟩
        rw [dec_norm_shift]
        rfl
      · by_cases hek : e < k
        · rw [if_neg he0, if_pos hek]
          rw [List.append_assoc ((if m < 0 then ['-'] else []) ++ ds.take (k - e)) ['.']
            (ds.drop (k - e))]
          rw [show (['.'] ++ ds.drop (k - e)) = '.' :: ds.drop (k - e) from rfl]
          rw [trunc_noop_dot ((if m < 0 then ['-'] else []) ++ ds.take (k - e)) (ds.drop (k - e))
            (by
              intro hmem
              rcases List.mem_append.mp hmem with h | h
              · exact absurd h (sign_not_dot m)
              · exact absurd h (digits_not_dot _ (fun c hc => hall c (List.take_subset _ _ hc))))
            (by
              rw [List.length_drop]
              omega)]
          rw [parse_fixed_str (m < 0) (ds.take (k - e)) (ds.drop (k - e))
            (fun c hc => hall c (List.take_subset _ _ hc))
            (fun c hc => hall c (List.drop_subset _ _ hc))
            (by
              rw [List.length_take, List.length_drop]
              omega)]
          have hd : digitsToNat 0 (ds.take (k - e) ++ ds.drop (k - e)) = m.natAbs := by
            rw [List.take_append_drop]
            exact hval
          rw [hd, mag_eq m m.natAbs rfl]
          rw [show (ds.drop (k - e)).length = e from by rw [List.length_drop]; omega]
          rw [hn]
        · rw [if_neg he0, if_neg hek]
          rw [show ((if m < 0 then ['-'] else []) ++ ['0', '.'] ++ List.replicate (e - k) '0' ++ ds)
              = ((if m < 0 then ['-'] else []) ++ ['0']) ++ '.' :: (List.replicate (e - k) '0' ++ ds)
            from by simp [List.append_assoc]]
          rw [trunc_noop_dot ((if m < 0 then ['-'] else []) ++ ['0'])
            (List.replicate (e - k) '0' ++ ds)
            (by
              intro hmem
              rcases List.mem_append.mp hmem with h | h
              · exact absurd h (sign_not_dot m)
              · exact absurd (List.mem_singleton.mp h) (by decide))
            (by
              rw [List.length_append, List.length_replicate]
              omega)]
          rw [parse_fixed_str (m < 0) ['0'] (List.replicate (e - k) '0' ++ ds)
            (by
              intro c hc
              rw [List.mem_singleton.mp hc]
              decide)
            (by
              intro c hc
              rcases List.mem_append.mp hc with h | h
              · rw [List.eq_of_mem_replicate h]
                decide
              · exact hall c h)
            (by simp)]
          have hdz : digitsToNat 0 (['0'] ++ (List.replicate (e - k) '0' ++ ds)) = m.natAbs := by
            rw [show (['0'] ++ (List.replicate (e - k) '0' ++ ds))
                = List.replicate (e - k + 1) '0' ++ ds from by
              simp [List.replicate_succ]]
            rw [digitsToNat_zeros]
            exact hval
          rw [hdz, mag_eq m m.natAbs rfl]
          rw [show (List.replicate (e - k) '0' ++ ds).length = e from by
            rw [List.length_append, List.length_replicate]
            omega]
          rw [hn]
    · rw [if_neg (fun hc => hfix hc.1)]
      have he5 : 5 ≤ e := by omega
      have hmred : m % 10 ≠ 0 := by
        have h2 := dec_norm_reduced ⟨m, e⟩
        rw [hn] at h2
        simp only at h2
        rcases h2 with h2 | h2
        · omega
        · exact h2
      have hared : m.natAbs % 10 ≠ 0 := by omega
      rw [show ((ds.reverse.dropWhile (fun c => c == '0')).reverse) = ds from
        natDigits_strip m.natAbs hared]
      rw [if_pos (show (k : Int) - 1 - (e : Int) < 0 by omega)]
      rw [show (((k : Int) - 1 - (e : Int)).natAbs) = e + 1 - k from by omega]
      have hE56 : e + 1 - k = 5 ∨ e + 1 - k = 6 := by omega
      have hk12 : k = 1 ∨ k = 2 := by omega
      have hdsl : ds.length = k := hk.symm
      rcases hE56 with hE | hE
      · rw [hE, show natDigits 5 = ['5'] from rfl]
        rw [show (if (['5'] : List Char).length < 2 then
            List.replicate (2 - (['5'] : List Char).length) '0' ++ ['5'] else ['5'])
          = ['0', '5'] from rfl]
        rcases hk12 with hk1' | hk2'
        · rw [if_pos (show ds.length = 1 by omega)]
          exact sci_case_k1 m e ds ['0', '5'] hall (by decide) (by omega) (by decide)
            hval (by rw [show digitsToNat 0 (['0', '5'] : List Char) = 5 from rfl]; omega) hn
        · rw [if_neg (show ¬ ds.length = 1 by omega)]
          exact sci_case_k2 m e ds ['0', '5'] hall (by decide) (by omega) (by omega)
            (by decide) (by decide) hval
            (by rw [show digitsToNat 0 (['0', '5'] : List Char) = 5 from rfl]; omega) hn
      · rw [hE, show natDigits 6 = ['6'] from rfl]
        rw [show (if (['6'] : List Char).length < 2 then
            List.replicate (2 - (['6'] : List Char).length) '0' ++ ['6'] else ['6'])
          = ['0', '6'] from rfl]
        rcases hk12 with hk1' | hk2'
        · rw [if_pos (show ds.length = 1 by omega)]
          exact sci_case_k1 m e ds ['0', '6'] hall (by decide) (by omega) (by decide)
            hval (by rw [show digitsToNat 0 (['0', '6'] : List Char) = 6 from rfl]; omega) hn
        · rw [if_neg (show ¬ ds.length = 1 by omega)]
          exact sci_case_k2 m e ds ['0', '6'] hall (by decide) (by omega) (by omega)
            (by decide) (by decide) hval
            (by rw [show digitsToNat 0 (['0', '6'] : List Char) = 6 from rfl]; omega) hn

theorem round_e_le (d : Dec) : (d.roundHalfEvenAt 6).e ≤ 6 := by
  rw [Dec.roundHalfEvenAt]
  split
  · assumption
  · exact Nat.le_refl 6

theorem norm_go_e_le : ∀ (e : Nat) (m : Int), (Dec.norm.go m e).e ≤ e
  | 0, _ => Nat.le_refl 0
  | e + 1, m => by
    rw [Dec.norm.go]
    split
    · exact Nat.le_trans (norm_go_e_le e (m / 10)) (Nat.le_succ e)
    · exact Nat.le_refl (e + 1)

theorem norm_e_le (d : Dec) : (Dec.norm d).e ≤ d.e := norm_go_e_le d.e d.m

theorem encodeFloat_inRange (d : Dec) (h : floatInRange d = true) :
    encodeFloat d 6 = .ok ((d.roundHalfEvenAt 6).norm) := by
  have hr : ((d.roundHalfEvenAt 6).norm).m.natAbs
      < 10 ^ (16 + ((d.roundHalfEvenAt 6).norm).e) := by
    simpa [floatInRange] using h
  exact reprParse_exact _ (dec_norm_idem _) (Nat.le_trans (norm_e_le _) (round_e_le d)) hr

/-- Encoding a representable scalar yields its wire form. -/
theorem scalar_encode (x : Value) (hs : x.isScalar = true) (hw : wf x = true) :
    recursiveConvert x true 6 = .ok (encScalar x) := by
  cases x with
  | int n => rfl
  | float d =>
    rw [show recursiveConvert (.float d) true 6 = (encodeFloat d 6).map Value.decimal from rfl,
      encodeFloat_inRange d hw]
    rfl
  | bool b => rfl
  | str s => rfl
  | null => rfl
  | decimal d => simp [wf] at hw
  | list xs => simp [Value.isScalar] at hs
  | set xs => simp [Value.isScalar] at hs
  | map kvs => simp [Value.isScalar] at hs

/-- The wire form of a representable scalar is a wire scalar. -/
theorem encScalar_wire (x : Value) (hs : x.isScalar = true) (hw : wf x = true) :
    wireScalar (encScalar x) = true := by
  cases x with
  | int n => simp [encScalar, wireScalar, Dec.ofInt]; rfl
  | float d => simp [encScalar, wireScalar, dec_norm_idem]
  | bool b => cases b <;> (simp [encScalar, wireScalar, Dec.ofInt]; rfl)
  | str s => rfl
  | null => rfl
  | decimal d => simp [wf] at hw
  | list xs => simp [Value.isScalar] at hs
  | set xs => simp [Value.isScalar] at hs
  | map kvs => simp [Value.isScalar] at hs

/-- Decoding a wire scalar yields its native form. -/
theorem wire_decode (w : Value) (hw : wireScalar w = true) :
    recursiveConvert w false 6 = .ok (decScalar w) := by
  cases w with
  | decimal d => rfl
  | str s => rfl
  | null => rfl
  | int n => simp [wireScalar] at hw
  | float d => simp [wireScalar] at hw
  | bool b => simp [wireScalar] at hw
  | list xs => simp [wireScalar] at hw
  | set xs => simp [wireScalar] at hw
  | map kvs => simp [wireScalar] at hw

/-- On representable scalars the canonical form is decode-after-encode. -/
theorem scalar_canon (x : Value) (hs : x.isScalar = true) (hw : wf x = true) :
    canon x = decScalar (encScalar x) := by
  cases x with
  | int n => rfl
  | float d => rfl
  | bool b => cases b <;> rfl
  | str s => rfl
  | null => rfl
  | decimal d => simp [wf] at hw
  | list xs => simp [Value.isScalar] at hs
  | set xs => simp [Value.isScalar] at hs
  | map kvs => simp [Value.isScalar] at hs

/-- Decoding is injective on wire scalars: distinct wire values decode to
distinct native values. -/
theorem decScalar_inj (w1 w2 : Value) (h1 : wireScalar w1 = true) (h2 : wireScalar w2 = true)
    (h : decScalar w1 = decScalar w2) : w1 = w2 := by
  cases w1 with
  | decimal d1 =>
    cases w2 with
    | decimal d2 =>
      have e1 : Dec.norm d1 = d1 := by simpa [wireScalar] using h1
      have e2 : Dec.norm d2 = d2 := by simpa [wireScalar] using h2
      simp only [decScalar, decNative, e1, e2] at h
      by_cases c1 : d1.e = 0 <;> by_cases c2 : d2.e = 0 <;> simp [c1, c2] at h
      · obtain ⟨m1, f1⟩ := d1
        obtain ⟨m2, f2⟩ := d2
        simp_all
      · rw [h]
    | str s => simp only [decScalar, decNative] at h; split at h <;> simp_all
    | null => simp only [decScalar, decNative] at h; split at h <;> simp_all
    | int n => simp [wireScalar] at h2
    | float d => simp [wireScalar] at h2
    | bool b => simp [wireScalar] at h2
    | list xs => simp [wireScalar] at h2
    | set xs => simp [wireScalar] at h2
    | map kvs => simp [wireScalar] at h2
  | str s1 =>
    cases w2 with
    | decimal d2 => simp only [decScalar, decNative] at h; split at h <;> simp_all
    | str s2 => exact h
    | null => simp [decScalar] at h
    | int n => simp [wireScalar] at h2
    | float d => simp [wireScalar] at h2
    | bool b => simp [wireScalar] at h2
    | list xs => simp [wireScalar] at h2
    | set xs => simp [wireScalar] at h2
    | map kvs => simp [wireScalar] at h2
  | null =>
    cases w2 with
    | decimal d2 => simp only [decScalar, decNative] at h; split at h <;> simp_all
    | str s2 => simp [decScalar] at h
    | null => rfl
    | int n => simp [wireScalar] at h2
    | float d => simp [wireScalar] at h2
    | bool b => simp [wireScalar] at h2
    | list xs => simp [wireScalar] at h2
    | set xs => simp [wireScalar] at h2
    | map kvs => simp [wireScalar] at h2
  | int n => simp [wireScalar] at h1
  | float d => simp [wireScalar] at h1
  | bool b => simp [wireScalar] at h1
  | list xs => simp [wireScalar] at h1
  | set xs => simp [wireScalar] at h1
  | map kvs => simp [wireScalar] at h1

/-- Encoding a list of representable scalars encodes elementwise. -/
theorem convList_scalars : ∀ xs : ValueList, wfScalars xs = true →
    recursiveConvertList xs true = .ok (xs.map encScalar)
  | .nil, _ => rfl
  | .cons x xs, h => by
    simp only [wfScalars, Bool.and_eq_true] at h
    simp only [recursiveConvertList, scalar_encode x h.1.1 h.1.2, except_ok_bind,
      convList_scalars xs h.2, except_ok_bind, ValueList.map]
    rfl

/-- Decoding a list of wire scalars decodes elementwise. -/
theorem convList_wire : ∀ ws : ValueList, wireScalars ws = true →
    recursiveConvertList ws false = .ok (ws.map decScalar)
  | .nil, _ => rfl
  | .cons w ws, h => by
    simp only [wireScalars, Bool.and_eq_true] at h
    simp only [recursiveConvertList, wire_decode w h.1, except_ok_bind,
      convList_wire ws h.2, except_ok_bind, ValueList.map]
    rfl

/-- Elementwise encoding of representable scalars produces wire scalars. -/
theorem wireScalars_map_enc : ∀ xs : ValueList, wfScalars xs = true →
    wireScalars (xs.map encScalar) = true
  | .nil, _ => rfl
  | .cons x xs, h => by
    simp only [wfScalars, Bool.and_eq_true] at h
    simp only [ValueList.map, wireScalars, Bool.and_eq_true]
    exact ⟨encScalar_wire x h.1.1 h.1.2, wireScalars_map_enc xs h.2⟩

/-- Deduplication preserves the wire-scalar property. -/
theorem wireScalars_dedupAux : ∀ (ws : ValueList) (seen : List Value),
    wireScalars ws = true → wireScalars (ValueList.dedupAux seen ws) = true
  | .nil, _, h => h
  | .cons w ws, seen, h => by
    simp only [wireScalars, Bool.and_eq_true] at h
    simp only [ValueList.dedupAux]
    by_cases hm : w ∈ seen
    · rw [if_pos hm]
      exact wireScalars_dedupAux ws seen h.2
    · rw [if_neg hm]
      simp only [wireScalars, Bool.and_eq_true]
      exact ⟨h.1, wireScalars_dedupAux ws (w :: seen) h.2⟩

/-- Decoding commutes with keep-first deduplication on wire scalars, the
decoder being injective there. -/
theorem map_dedupAux_comm : ∀ (xs : ValueList) (seen : List Value),
    wireScalars xs = true → (∀ a ∈ seen, wireScalar a = true) →
    (ValueList.dedupAux seen xs).map decScalar
      = ValueList.dedupAux (seen.map decScalar) (xs.map decScalar)
  | .nil, seen, _, _ => rfl
  | .cons x xs, seen, hx, hseen => by
    simp only [wireScalars, Bool.and_eq_true] at hx
    simp only [ValueList.map, ValueList.dedupAux]
    by_cases hm : x ∈ seen
    · rw [if_pos hm, if_pos (List.mem_map_of_mem decScalar hm)]
      exact map_dedupAux_comm xs seen hx.2 hseen
    · have hm2 : decScalar x ∉ seen.map decScalar := by
        intro hc
        obtain ⟨b, hb, hbe⟩ := List.mem_map.mp hc
        exact hm (decScalar_inj b x (hseen b hb) hx.1 hbe ▸ hb)
      rw [if_neg hm, if_neg hm2]
      simp only [ValueList.map]
      have hrec := map_dedupAux_comm xs (x :: seen) hx.2
        (fun a ha => by
          rcases List.mem_cons.mp ha with rfl | ha2
          · exact hx.1
          · exact hseen a ha2)
      rw [hrec]
      rfl

/-- Keep-first deduplication is idempotent. -/
theorem dedupAux_idem : ∀ (xs : ValueList) (seen : List Value),
    ValueList.dedupAux seen (ValueList.dedupAux seen xs) = ValueList.dedupAux seen xs
  | .nil, seen => rfl
  | .cons x xs, seen => by
    simp only [ValueList.dedupAux]
    by_cases hm : x ∈ seen
    · rw [if_pos hm]
      exact dedupAux_idem xs seen
    · rw [if_neg hm]
      simp only [ValueList.dedupAux, if_neg hm]
      rw [dedupAux_idem xs (x :: seen)]

/-- Mapping twice over a value list composes. -/
theorem vl_map_map (f g : Value → Value) : ∀ xs : ValueList,
    (xs.map f).map g = xs.map (fun x => g (f x))
  | .nil => rfl
  | .cons x xs => by simp only [ValueList.map, vl_map_map f g xs]

/-- Decode-after-encode over scalar set members is the canonical list. -/
theorem map_decenc_canonList : ∀ xs : ValueList, wfScalars xs = true →
    xs.map (fun x => decScalar (encScalar x)) = canonList xs
  | .nil, _ => rfl
  | .cons x xs, h => by
    simp only [wfScalars, Bool.and_eq_true] at h
    simp only [ValueList.map, canonList, map_decenc_canonList xs h.2,
      ← scalar_canon x h.1.1 h.1.2]

/-- A representable value is never the empty set (spec section 3: sets are
non-empty). -/
theorem wf_ne_emptySet (v : Value) (h : wf v = true) : v ≠ .set .nil := by
  intro hc
  subst hc
  simp [wf] at h

/-- Round trip of a representable set: the encoder deduplicates the encoded
members and the decoder returns the canonical set. -/
theorem roundtrip_set (xs : ValueList) (hwf : wfScalars xs = true) :
    recursiveConvert (.set xs) true 6 = .ok (.set ((xs.map encScalar).dedup))
    ∧ recursiveConvert (.set ((xs.map encScalar).dedup)) false 6 = .ok (canon (.set xs)) := by
  have hwire : wireScalars ((xs.map encScalar).dedup) = true :=
    wireScalars_dedupAux (xs.map encScalar) [] (wireScalars_map_enc xs hwf)
  constructor
  · rw [show recursiveConvert (.set xs) true 6
        = (recursiveConvertList xs true).map (fun ys => .set ys.dedup) from rfl,
      convList_scalars xs hwf]
    rfl
  · rw [show recursiveConvert (.set ((xs.map encScalar).dedup)) false 6
        = (recursiveConvertList ((xs.map encScalar).dedup) false).map (fun ys => .set ys.dedup)
        from rfl,
      convList_wire _ hwire]
    have hchain : ((xs.map encScalar).dedup).map decScalar = (canonList xs).dedup := by
      rw [ValueList.dedup, map_dedupAux_comm (xs.map encScalar) [] (wireScalars_map_enc xs hwf)
        (by intro a ha; simp at ha)]
      rw [show (List.map decScalar [] : List Value) = [] from rfl]
      rw [vl_map_map, map_decenc_canonList xs hwf]
      rfl
    rw [hchain,
      show (Except.ok ((canonList xs).dedup)).map (fun ys : ValueList => Value.set ys.dedup)
        = Except.ok (Value.set (((canonList xs).dedup).dedup)) from rfl,
      show ((canonList xs).dedup).dedup = (canonList xs).dedup
        from dedupAux_idem (canonList xs) []]
    rfl

mutual
/-- Round trip of any representable value: encoding succeeds and decoding the
wire value gives the canonical form. -/
theorem roundtripAux : ∀ v : Value, wf v = true →
    ∃ w, recursiveConvert v true 6 = .ok w ∧ recursiveConvert w false 6 = .ok (canon v)
  | .null, _ => ⟨.null, rfl, rfl⟩
  | .str s, _ => ⟨.str s, rfl, rfl⟩
  | .bool b, _ => by cases b <;> exact ⟨_, rfl, rfl⟩
  | .int n, _ => ⟨.decimal (Dec.ofInt n), rfl, rfl⟩
  | .float d, h => by
    refine ⟨.decimal ((d.roundHalfEvenAt 6).norm), ?_, rfl⟩
    rw [show recursiveConvert (.float d) true 6 = (encodeFloat d 6).map Value.decimal from rfl,
      encodeFloat_inRange d h]
    rfl
  | .decimal d, h => by simp [wf] at h
  | .list xs, h => by
    obtain ⟨ws, h1, h2⟩ := roundtripAuxList xs h
    refine ⟨.list ws, ?_, ?_⟩
    · rw [show recursiveConvert (.list xs) true 6
          = (recursiveConvertList xs true).map .list from rfl, h1]
      rfl
    · rw [show recursiveConvert (.list ws) false 6
          = (recursiveConvertList ws false).map .list from rfl, h2]
      rfl
  | .set xs, h => by
    have hsc : wfScalars xs = true := by
      have h2 := h
      simp only [wf, Bool.and_eq_true] at h2
      exact h2.2
    obtain ⟨e1, e2⟩ := roundtrip_set xs hsc
    exact ⟨_, e1, e2⟩
  | .map kvs, h => by
    obtain ⟨ws, h1, h2⟩ := roundtripAuxMap kvs h
    refine ⟨.map ws, ?_, ?_⟩
    · rw [show recursiveConvert (.map kvs) true 6
          = (recursiveConvertMap kvs true).map .map from rfl, h1]
      rfl
    · rw [show recursiveConvert (.map ws) false 6
          = (recursiveConvertMap ws false).map .map from rfl, h2]
      rfl

/-- List version of the round trip. -/
theorem roundtripAuxList : ∀ xs : ValueList, wfList xs = true →
    ∃ ws, recursiveConvertList xs true = .ok ws
      ∧ recursiveConvertList ws false = .ok (canonList xs)
  | .nil, _ => ⟨.nil, rfl, rfl⟩
  | .cons x xs, h => by
    simp only [wfList, Bool.and_eq_true] at h
    obtain ⟨w, hw1, hw2⟩ := roundtripAux x h.1
    obtain ⟨ws, hs1, hs2⟩ := roundtripAuxList xs h.2
    refine ⟨.cons w ws, ?_, ?_⟩
    · rw [recursiveConvertList, hw1, except_ok_bind, hs1, except_ok_bind]
      rfl
    · rw [recursiveConvertList, hw2, except_ok_bind, hs2, except_ok_bind]
      rfl

/-- Map version of the round trip: no entry is an empty set before encoding
(representability) or after (the encoder never produces one), so no entry is
dropped in either direction. -/
theorem roundtripAuxMap : ∀ kvs : ValueMap, wfMap kvs = true →
    ∃ ws, recursiveConvertMap kvs true = .ok ws
      ∧ recursiveConvertMap ws false = .ok (canonMap kvs)
  | .nil, _ => ⟨.nil, rfl, rfl⟩
  | .cons k v kvs, h => by
    simp only [wfMap, Bool.and_eq_true] at h
    obtain ⟨w, hw1, hw2⟩ := roundtripAux v h.1
    obtain ⟨ws, hs1, hs2⟩ := roundtripAuxMap kvs h.2
    have hv : v ≠ .set .nil := wf_ne_emptySet v h.1
    have hw : w ≠ .set .nil := encode_ne_emptySet v w hv hw1
    refine ⟨.cons k w ws, ?_, ?_⟩
    · rw [recursiveConvertMap, if_neg hv, hw1, except_ok_bind, hs1, except_ok_bind]
      rfl
    · rw [recursiveConvertMap, if_neg hw, hw2, except_ok_bind, hs2, except_ok_bind]
      rfl
end

/-- Above the fixed-notation range the encoder mangles the value: the repr of
1.234e16 is scientific, the fractional cut leaves the digits `234e+1`, and the
reassembled string parses as 12.34. -/
theorem float_e16_mangled :
    recursiveConvert (.float ⟨12340000000000000, 0⟩) true 6 = .ok (.decimal ⟨1234, 2⟩) := by
  decide

/-- A mantissa one digit longer leaves a dangling exponent marker after the
cut, on which the `Decimal` constructor raises `InvalidOperation`. -/
theorem float_e16_invalid :
    recursiveConvert (.float ⟨12345000000000000, 0⟩) true 6 = .error .invalidOperation := by
  decide

